import Mathlib

/-!
Verification of the session-lifecycle engine of the UCI-ClusterManager
desktop client (modules/vscode_helper.py, modules/node_status.py,
ui/vscode_widget.py) against its natural-language specification.

Strings are modelled as `List Char`; Python file contents, command outputs
and regular-expression processing are embedded as executable functions on
character lists.  Floating point percentages are modelled exactly over `ℚ`.
I/O (SSH transport, file system, Qt signals) is abstracted: each embedded
function takes the data the Python code would read as arguments and returns
the data the Python code would write or emit.
-/

set_option maxRecDepth 100000

/-- Character list of a string literal. -/
def str (s : String) : List Char := s.data

/-- Python `str.strip` / `str.rstrip` whitespace class (the characters
Python treats as whitespace that can appear in this code's data). -/
def isPySpace (c : Char) : Bool :=
  c = ' ' || c = '\t' || c = '\n' || c = '\r' || c = '\x0b' || c = '\x0c'

/-- Python `s.rstrip()`. -/
def pyRstrip (s : List Char) : List Char :=
  (s.reverse.dropWhile isPySpace).reverse

/-- Python `s.strip()`. -/
def pyStrip (s : List Char) : List Char :=
  (pyRstrip s).dropWhile isPySpace

/-- Python `s.split(sep)` for a single-character separator (keeps empty
fields, as Python does for an explicit separator). -/
def splitOnChar (sep : Char) : List Char → List (List Char)
  | [] => [[]]
  | c :: rest =>
    match splitOnChar sep rest with
    | [] => if c = sep then [[], []] else [[c]]
    | h :: t => if c = sep then [] :: h :: t else (c :: h) :: t

/-- Helper for `splitWs` (accumulates the current token reversed). -/
def splitWsAux : List Char → List Char → List (List Char)
  | [], acc => if acc.isEmpty then [] else [acc.reverse]
  | c :: rest, acc =>
    if isPySpace c then
      if acc.isEmpty then splitWsAux rest [] else acc.reverse :: splitWsAux rest []
    else
      splitWsAux rest (c :: acc)

/-- Python `s.split()` with no argument: split on whitespace runs,
dropping empty fields. -/
def splitWs (s : List Char) : List (List Char) := splitWsAux s []

/-- Python `pat in s` for strings (substring test). -/
def containsSeq (pat : List Char) : List Char → Bool
  | [] => pat.isEmpty
  | c :: rest => pat.isPrefixOf (c :: rest) || containsSeq pat rest

/-- Python `s.isdigit()` (true only on a non-empty all-digit string). -/
def allDigits (s : List Char) : Bool := !s.isEmpty && s.all Char.isDigit

/-- Python `int(s)` on a digit string. -/
def natOfDigits (s : List Char) : Nat :=
  s.foldl (fun n c => n * 10 + (c.toNat - '0'.toNat)) 0

/-!
ControlChannel output handling
(vscode_helper.py `VSCodeManager.execute_ssh_command`, lines 119-150, and
node_status.py `NodeStatusManager.execute_ssh_command`, lines 159-192: both
read stdout and stderr of `exec_command` and apply the identical check
`if error and not output: raise`).
-/

/-- Outcome of one remote command, as a function of the decoded stdout and
stderr: stderr with empty stdout raises, anything else returns stdout. -/
def execute_ssh_command_result (output error : List Char) :
    Except (List Char) (List Char) :=
  if error ≠ [] ∧ output = [] then
    Except.error (str "Command execution error: " ++ error)
  else
    Except.ok output

/-!
Job status query (vscode_helper.py `VSCodeManager.get_job_status`,
lines 398-478). The two remote commands it may issue are modelled as an
inductive trace so that "a secondary accounting query is issued" is a
statement about the returned command list.
-/

/-- Remote scheduler commands issued by `get_job_status`. -/
inductive SlurmCmd where
  | squeueJob (job_id : List Char)
  | sacctJob (job_id : List Char)
deriving DecidableEq, Repr

/-- Parsed job-status record (the dict returned by `get_job_status`). -/
structure JobStatusRec where
  job_id : List Char
  status : List Char
  node : Option (List Char)
  cpus : Nat := 0
  memory : List Char := []
  time_limit : List Char := []
deriving DecidableEq, Repr

/-- Scan of the sacct lines: first line that contains neither `.batch` nor
`.extern` and splits into at least three pipe-separated fields yields
`(state, node)`, as in lines 428-441 of vscode_helper.py. -/
def sacctFindLine : List (List Char) → Option (List Char × List Char)
  | [] => none
  | line :: rest =>
    if !containsSeq (str ".batch") line && !containsSeq (str ".extern") line then
      let parts := splitOnChar '|' line
      if parts.length ≥ 3 then
        some (parts.getD 2 [], if parts.length > 3 then parts.getD 3 [] else [])
      else sacctFindLine rest
    else sacctFindLine rest

/-- `VSCodeManager.get_job_status`, as a function of the job id and of the
stdout of the squeue and (if consulted) sacct commands.  Returns the list of
commands issued and the resulting record (`none` models returning `None`). -/
def get_job_status (job_id squeueOut sacctOut : List Char) :
    List SlurmCmd × Option JobStatusRec :=
  if squeueOut = [] ∨ pyStrip squeueOut = [] then
    let res :=
      if sacctOut ≠ [] ∧ pyStrip sacctOut ≠ [] then
        match sacctFindLine (splitOnChar '\n' (pyStrip sacctOut)) with
        | some (st, nd) => some { job_id := job_id, status := st, node := some nd }
        | none => some { job_id := job_id, status := str "CANCELLED", node := none }
      else
        some { job_id := job_id, status := str "CANCELLED", node := none }
    ([SlurmCmd.squeueJob job_id, SlurmCmd.sacctJob job_id], res)
  else
    let parts := splitOnChar '|' (pyStrip squeueOut)
    if parts.length ≥ 3 then
      ([SlurmCmd.squeueJob job_id],
        some { job_id := job_id
               status := parts.getD 2 []
               node := if parts.length > 3 ∧ parts.getD 3 [] ≠ str "(None)" then
                   some (parts.getD 3 []) else none
               cpus := if parts.length > 4 ∧ allDigits (parts.getD 4 []) then
                   natOfDigits (parts.getD 4 []) else 0
               memory := if parts.length > 5 then parts.getD 5 [] else str "0"
               time_limit := if parts.length > 6 then parts.getD 6 [] else [] })
    else
      ([SlurmCmd.squeueJob job_id], none)

/-!
Job cancellation (vscode_helper.py `VSCodeManager.cancel_job`,
lines 480-519).  The body runs `scancel` first and only on its success
reaches `_remove_ssh_config_from_local`; an exception from the scancel
command is caught and turned into a `False` return.  The model returns
(value returned, whether the local-config removal was attempted); the
function being total models "returns without throwing".
-/

/-- `VSCodeManager.cancel_job` control flow: `job_id` argument, the tracked
`current_job` id (if any), and whether `execute_ssh_command("scancel …")`
raises. -/
def cancel_job (job_id : Option (List Char)) (current_job : Option (List Char))
    (scancelRaises : Bool) : Bool × Bool :=
  let jid := match job_id with
    | some j => some j
    | none => current_job
  match jid with
  | none => (false, false)
  | some _ => if scancelRaises then (false, false) else (true, true)

/-- Claim C9: a remote command with non-empty stderr and empty stdout is
reported as a failure (an error is raised), while non-empty stdout is
returned to the caller even when stderr is also non-empty.  Confirmed for
the shared stdout/stderr check of `execute_ssh_command` in
vscode_helper.py (lines 140-145) and node_status.py (lines 183-187). -/
theorem c9_ssh_output_semantics (output error : List Char) :
    (error ≠ [] ∧ output = [] →
      execute_ssh_command_result output error =
        Except.error (str "Command execution error: " ++ error)) ∧
    (output ≠ [] → execute_ssh_command_result output error = Except.ok output) := by
  constructor
  · intro h
    simp [execute_ssh_command_result, h.1, h.2]
  · intro h
    simp [execute_ssh_command_result, h]

/-- Witness for C9 at concrete outputs: stderr `e` with empty stdout is an
error; stdout `out` is returned although stderr `e` is present. -/
theorem c9_ssh_output_semantics_witness :
    execute_ssh_command_result [] (str "e") =
      Except.error (str "Command execution error: " ++ str "e") ∧
    execute_ssh_command_result (str "out") (str "e") = Except.ok (str "out") :=
  ⟨(c9_ssh_output_semantics [] (str "e")).1 ⟨by decide, rfl⟩,
   (c9_ssh_output_semantics (str "out") (str "e")).2 (by decide)⟩

/-- Claim C5: when the squeue output for a tracked job is empty, the status
routine issues the secondary sacct query, and when that output is also
empty the job is reported as CANCELLED.  Confirmed for
`VSCodeManager.get_job_status` (vscode_helper.py lines 417-448). -/
theorem c5_empty_queries_cancelled (job_id squeueOut sacctOut : List Char)
    (h1 : pyStrip squeueOut = []) (h2 : pyStrip sacctOut = []) :
    (get_job_status job_id squeueOut sacctOut).1 =
      [SlurmCmd.squeueJob job_id, SlurmCmd.sacctJob job_id] ∧
    (get_job_status job_id squeueOut sacctOut).2 =
      some { job_id := job_id, status := str "CANCELLED", node := none } := by
  constructor <;> simp [get_job_status, h1, h2]

/-- Witness for C5 at concrete empty outputs. -/
theorem c5_empty_queries_cancelled_witness :
    pyStrip [] = [] ∧
    (get_job_status (str "123") [] []).2 =
      some { job_id := str "123", status := str "CANCELLED", node := none } :=
  ⟨rfl, (c5_empty_queries_cancelled (str "123") [] [] rfl rfl).2⟩

/-- Claim C1 is false on the code: cancelling an untracked job id whose
`scancel` command fails (stderr, no stdout, so `execute_ssh_command`
raises) returns failure but never reaches the local-configuration removal,
because `_remove_ssh_config_from_local` is called after the scancel inside
the same `try` block.  At this concrete input the removal flag is false. -/
theorem c1_cancel_counterexample :
    cancel_job (some (str "12345")) none true = (false, false) := by decide

/-- Claim C1 amended: `cancel_job` on a given job id returns success and
attempts the local SSH-configuration removal exactly when the scancel
command does not raise; when scancel fails it returns `false` without
throwing and without attempting the removal. -/
theorem c1_cancel_removal_follows_scancel (j : List Char)
    (cur : Option (List Char)) (scancelRaises : Bool) :
    cancel_job (some j) cur scancelRaises = (!scancelRaises, !scancelRaises) := by
  cases scancelRaises <;> rfl

/-!
Status polling loop (vscode_helper.py `VSCodeManager._start_poll_job_status`,
lines 564-625; inner thread function `poll_job`, lines 571-622).  Each loop
iteration observes the environment through `get_job_status` and
`_parse_vscode_config`; one `PollObs` records what those calls would return
on that iteration.  Events are the Qt signals the loop emits.
-/

/-- Signals emitted by the polling loop. -/
inductive PollEv where
  | sshConfigAdded (job_id hostname : List Char)
  | configReady
  | statusUpdated (status : List Char)
deriving DecidableEq, Repr

/-- Environment response for one poll iteration: the status returned by
`get_job_status` (`none` models a `None` return) and, when the config is
consulted, the result of `_parse_vscode_config` (`none` models a `None`
config; `some h` a config whose `hostname` field is `h`, itself optional). -/
structure PollObs where
  status : Option (List Char)
  cfgHostname : Option (Option (List Char))
deriving DecidableEq, Repr

/-- Terminal scheduler states tested by the loop (line 582). -/
def terminalStatuses : List (List Char) :=
  [str "COMPLETED", str "FAILED", str "CANCELLED", str "TIMEOUT"]

/-- One iteration of the `poll_job` body (lines 578-609): `none` when the
loop breaks before emitting (missing or terminal status), otherwise the
events emitted this iteration together with the updated
`config_written_jobs` membership for this job id. -/
def pollStep (job_id : List Char) (ob : PollObs) (count : Nat)
    (written : Bool) : Option (List PollEv × Bool) :=
  match ob.status with
  | none => none
  | some s =>
    if s ∈ terminalStatuses then none
    else
      let cfgStep : List PollEv × Bool :=
        if s = str "RUNNING" ∧ count % 2 = 0 then
          match ob.cfgHostname with
          | some h =>
            let addStep : List PollEv × Bool :=
              match h with
              | some host =>
                if !written then ([PollEv.sshConfigAdded job_id host], true)
                else ([], written)
              | none => ([], written)
            (addStep.1 ++ [PollEv.configReady], addStep.2)
          | none => ([], written)
        else ([], written)
      some (cfgStep.1 ++ [PollEv.statusUpdated s], cfgStep.2)

/-- The `poll_job` while-loop over a list of per-iteration observations,
starting from poll count `count` with `written` recording whether the job id
is in `config_written_jobs`; emits the events in order and stops after the
`poll_count > 180` check (line 618). -/
def poll_job_loop (job_id : List Char) :
    List PollObs → Nat → Bool → List PollEv
  | [], _, _ => []
  | ob :: rest, count, written =>
    match pollStep job_id ob count written with
    | none => []
    | some (evs, w) =>
      evs ++ (if count + 1 > 180 then []
              else poll_job_loop job_id rest (count + 1) w)

/-- A fresh polling run as started by `_start_poll_job_status` (poll count
0, configuration not yet written). -/
def poll_job_run (job_id : List Char) (obs : List PollObs) : List PollEv :=
  poll_job_loop job_id obs 0 false

/-- Number of `sshConfigAdded` events in an event list. -/
def countAdded (evs : List PollEv) : Nat :=
  evs.countP fun e =>
    match e with
    | PollEv.sshConfigAdded _ _ => true
    | _ => false

/-- Number of `statusUpdated` events in an event list. -/
def countStatusUpdates (evs : List PollEv) : Nat :=
  evs.countP fun e =>
    match e with
    | PollEv.statusUpdated _ => true
    | _ => false

/-- An observation of a RUNNING job with a parseable config. -/
def obsRunningCfg : PollObs :=
  { status := some (str "RUNNING"), cfgHostname := some (some (str "gpu-4")) }

/-- An observation of a RUNNING job whose config is not yet parseable. -/
def obsRunningNoCfg : PollObs :=
  { status := some (str "RUNNING"), cfgHostname := none }

/-- Per-iteration accounting of `sshConfigAdded` events: an iteration either
adds none and leaves the written flag unchanged, or (only from the
not-written state) adds exactly one and sets the flag. -/
theorem pollStep_countAdded (job_id : List Char) (ob : PollObs) (count : Nat)
    (written : Bool) (evs : List PollEv) (w : Bool)
    (h : pollStep job_id ob count written = some (evs, w)) :
    (countAdded evs = 0 ∧ w = written) ∨
    (written = false ∧ countAdded evs = 1 ∧ w = true) := by
  obtain ⟨st, cfg⟩ := ob
  cases st with
  | none => simp [pollStep] at h
  | some s =>
    by_cases hterm : s ∈ terminalStatuses
    · simp [pollStep, hterm] at h
    · by_cases hrun : s = str "RUNNING" ∧ count % 2 = 0
      · obtain ⟨hs, hcnt⟩ := hrun
        subst hs
        rcases cfg with _ | ⟨_ | host⟩
        · simp [pollStep, hterm, hcnt] at h
          obtain ⟨he, hw⟩ := h
          subst he; subst hw
          left
          exact ⟨by simp [countAdded, List.countP_cons], rfl⟩
        · simp [pollStep, hterm, hcnt] at h
          obtain ⟨he, hw⟩ := h
          subst he; subst hw
          left
          exact ⟨by simp [countAdded, List.countP_cons], rfl⟩
        · cases written with
          | false =>
            simp [pollStep, hterm, hcnt] at h
            obtain ⟨he, hw⟩ := h
            subst he; subst hw
            right
            exact ⟨rfl, by simp [countAdded, List.countP_cons], rfl⟩
          | true =>
            simp [pollStep, hterm, hcnt] at h
            obtain ⟨he, hw⟩ := h
            subst he; subst hw
            left
            exact ⟨by simp [countAdded, List.countP_cons], rfl⟩
      · simp [pollStep, hterm, hrun] at h
        obtain ⟨he, hw⟩ := h
        subst he; subst hw
        left
        exact ⟨by simp [countAdded, List.countP_cons], rfl⟩

/-- Per-iteration accounting of `statusUpdated` events: each completed
iteration emits exactly one, and its status is never a terminal one. -/
theorem pollStep_statusUpdates (job_id : List Char) (ob : PollObs)
    (count : Nat) (written : Bool) (evs : List PollEv) (w : Bool)
    (h : pollStep job_id ob count written = some (evs, w)) :
    countStatusUpdates evs = 1 ∧
    ∀ t, PollEv.statusUpdated t ∈ evs → t ∉ terminalStatuses := by
  obtain ⟨st, cfg⟩ := ob
  cases st with
  | none => simp [pollStep] at h
  | some s =>
    by_cases hterm : s ∈ terminalStatuses
    · simp [pollStep, hterm] at h
    · by_cases hrun : s = str "RUNNING" ∧ count % 2 = 0
      · obtain ⟨hs, hcnt⟩ := hrun
        subst hs
        rcases cfg with _ | ⟨_ | host⟩
        · simp [pollStep, hterm, hcnt] at h
          obtain ⟨he, hw⟩ := h
          subst he
          refine ⟨by simp [countStatusUpdates, List.countP_cons], ?_⟩
          intro t ht
          simp at ht
          rw [ht]
          exact hterm
        · simp [pollStep, hterm, hcnt] at h
          obtain ⟨he, hw⟩ := h
          subst he
          refine ⟨by simp [countStatusUpdates, List.countP_cons], ?_⟩
          intro t ht
          simp at ht
          rw [ht]
          exact hterm
        · cases written with
          | false =>
            simp [pollStep, hterm, hcnt] at h
            obtain ⟨he, hw⟩ := h
            subst he
            refine ⟨by simp [countStatusUpdates, List.countP_cons], ?_⟩
            intro t ht
            simp at ht
            rw [ht]
            exact hterm
          | true =>
            simp [pollStep, hterm, hcnt] at h
            obtain ⟨he, hw⟩ := h
            subst he
            refine ⟨by simp [countStatusUpdates, List.countP_cons], ?_⟩
            intro t ht
            simp at ht
            rw [ht]
            exact hterm
      · simp [pollStep, hterm, hrun] at h
        obtain ⟨he, hw⟩ := h
        subst he
        refine ⟨by simp [countStatusUpdates, List.countP_cons], ?_⟩
        intro t ht
        simp at ht
        rw [ht]
        exact hterm

/-- Once the written flag is set, the loop emits no further
`sshConfigAdded` events. -/
theorem countAdded_poll_job_loop_true (job_id : List Char)
    (obs : List PollObs) :
    ∀ count, countAdded (poll_job_loop job_id obs count true) = 0 := by
  induction obs with
  | nil => intro count; simp [poll_job_loop, countAdded]
  | cons ob rest ih =>
    intro count
    simp only [poll_job_loop]
    rcases hstep : pollStep job_id ob count true with _ | ⟨evs, w⟩
    · simp [countAdded]
    · rcases pollStep_countAdded job_id ob count true evs w hstep with
        ⟨h0, hw⟩ | ⟨hwr, _, _⟩
      · subst hw
        simp only [countAdded, List.countP_append] at h0 ⊢
        rw [h0]
        by_cases hstop : count + 1 > 180
        · simp [hstop]
        · have h2 := ih (count + 1)
          simp only [countAdded] at h2
          simp [hstop, h2]
      · exact absurd hwr (by simp)

/-- The loop emits at most one `sshConfigAdded` event from any state. -/
theorem countAdded_poll_job_loop_le (job_id : List Char) (obs : List PollObs) :
    ∀ count written, countAdded (poll_job_loop job_id obs count written) ≤ 1 := by
  induction obs with
  | nil => intro count written; simp [poll_job_loop, countAdded]
  | cons ob rest ih =>
    intro count written
    simp only [poll_job_loop]
    rcases hstep : pollStep job_id ob count written with _ | ⟨evs, w⟩
    · simp [countAdded]
    · rcases pollStep_countAdded job_id ob count written evs w hstep with
        ⟨h0, hw⟩ | ⟨hwr, h1, hw⟩
      · simp only [countAdded, List.countP_append] at h0 ⊢
        rw [h0]
        by_cases hstop : count + 1 > 180
        · simp [hstop]
        · have h2 := ih (count + 1) w
          simp only [countAdded] at h2
          simpa [hstop] using h2
      · subst hw
        simp only [countAdded, List.countP_append] at h1 ⊢
        rw [h1]
        by_cases hstop : count + 1 > 180
        · simp [hstop]
        · have h2 := countAdded_poll_job_loop_true job_id rest (count + 1)
          simp only [countAdded] at h2
          simp [hstop, h2]

/-- Claim C3 is false on the code: with three consecutive RUNNING polls that
each parse a config, the `vscode_config_ready` signal (the
configuration-ready notification carrying the resolved endpoint) is emitted
twice — on poll counts 0 and 2 — because its emission at line 606 of
vscode_helper.py is outside the `config_written_jobs` guard; only the
`ssh_config_added` emission is guarded. -/
theorem c3_config_ready_twice_counterexample :
    (poll_job_run (str "1") [obsRunningCfg, obsRunningCfg, obsRunningCfg]).count
      PollEv.configReady = 2 := by decide

/-- Claim C3 amended: what fires at most once per job id is the guarded
configuration write with its `ssh_config_added` signal (protected by the
`config_written_jobs` set); the `vscode_config_ready` configuration-ready
signal is re-emitted on every even-numbered RUNNING poll whose config
parses. -/
theorem c3_ssh_config_added_once_amended (job_id : List Char)
    (obs : List PollObs) :
    countAdded (poll_job_run job_id obs) ≤ 1 :=
  countAdded_poll_job_loop_le job_id obs 0 false

/-- The polling loop never emits a TIMEOUT status update: TIMEOUT is in the
terminal list, and a terminal status breaks the loop before any emission. -/
theorem poll_job_loop_no_timeout_event (job_id : List Char)
    (obs : List PollObs) :
    ∀ count written,
      PollEv.statusUpdated (str "TIMEOUT") ∉
        poll_job_loop job_id obs count written := by
  induction obs with
  | nil => intro count written; simp [poll_job_loop]
  | cons ob rest ih =>
    intro count written
    simp only [poll_job_loop]
    rcases hstep : pollStep job_id ob count written with _ | ⟨evs, w⟩
    · simp
    · intro hmem
      simp only [List.mem_append] at hmem
      rcases hmem with hmem | hmem
      · have hterm :=
          (pollStep_statusUpdates job_id ob count written evs w hstep).2
            (str "TIMEOUT") hmem
        exact hterm (by decide)
      · by_cases hstop : count + 1 > 180
        · simp [hstop] at hmem
        · simp only [if_neg hstop] at hmem
          exact ih (count + 1) w hmem

/-- The polling loop performs at most `181 - count` further iterations:
the `poll_count > 180` check bounds the attempt budget. -/
theorem countStatusUpdates_poll_job_loop (job_id : List Char)
    (obs : List PollObs) :
    ∀ count written, count ≤ 180 →
      countStatusUpdates (poll_job_loop job_id obs count written) ≤
        181 - count := by
  induction obs with
  | nil => intro count written _; simp [poll_job_loop, countStatusUpdates]
  | cons ob rest ih =>
    intro count written hcount
    simp only [poll_job_loop]
    rcases hstep : pollStep job_id ob count written with _ | ⟨evs, w⟩
    · simp [countStatusUpdates]
    · have h1 := (pollStep_statusUpdates job_id ob count written evs w hstep).1
      simp only [countStatusUpdates, List.countP_append] at h1 ⊢
      rw [h1]
      by_cases hstop : count + 1 > 180
      · simp only [if_pos hstop, List.countP_nil]
        omega
      · have h2 := ih (count + 1) w (by omega)
        simp only [countStatusUpdates] at h2
        simp only [if_neg hstop]
        omega

/-- Claim C4 is false on the code: feeding the loop 182 consecutive RUNNING
polls exhausts the 180-poll budget after 181 processed polls, and the loop
simply breaks — the events contain no TIMEOUT status update (no transition
to a terminal TIMEOUT state, no terminal event); it merely stops polling.
(The companion path `_monitor_job_status`, lines 304-306, likewise only
emits `error_occurred` on its 60-minute bound and never sets TIMEOUT.) -/
theorem c4_no_timeout_transition_counterexample :
    (poll_job_run (str "1") (List.replicate 182 obsRunningNoCfg)).length = 181 ∧
    PollEv.statusUpdated (str "TIMEOUT") ∉
      poll_job_run (str "1") (List.replicate 182 obsRunningNoCfg) := by decide

/-- Claim C4 amended: when the bounded polling budget is exceeded the loop
stops polling without propagating an exception (the loop is a total
function), emitting at most 181 status updates in any run; but the job is
never transitioned to TIMEOUT by the monitor — no TIMEOUT status event is
ever emitted by the loop itself. -/
theorem c4_poll_budget_amended (job_id : List Char) (obs : List PollObs) :
    countStatusUpdates (poll_job_run job_id obs) ≤ 181 ∧
    PollEv.statusUpdated (str "TIMEOUT") ∉ poll_job_run job_id obs :=
  ⟨countStatusUpdates_poll_job_loop job_id obs 0 false (by omega),
   poll_job_loop_no_timeout_event job_id obs 0 false⟩

/-!
Node report parsing (node_status.py `NodeStatusManager.get_gpu_partition_nodes`,
lines 248-348, and `get_cpu_partition_nodes`, lines 350-417).  The sinfo
output lines are whitespace-split; the CPU-state field is matched against
the pattern digits/digits/digits/digits, the Gres field against
`gpu:type:count` and the GresUsed field against `gpu:type:count(IDX:...)`.
The floating-point usage percentages are modelled exactly over `ℚ`.
-/

/-- First-match search for the pattern `(\d+)/(\d+)/(\d+)/(\d+)` at the
start of `s` (a maximal digit run, then a slash, four times; the fourth run
needs no terminator). -/
def matchAIOTHere (s : List Char) : Option (Nat × Nat × Nat × Nat) :=
  let d1 := s.takeWhile Char.isDigit
  let r1 := s.dropWhile Char.isDigit
  match d1, r1 with
  | [], _ => none
  | _, '/' :: r1' =>
    let d2 := r1'.takeWhile Char.isDigit
    let r2 := r1'.dropWhile Char.isDigit
    match d2, r2 with
    | [], _ => none
    | _, '/' :: r2' =>
      let d3 := r2'.takeWhile Char.isDigit
      let r3 := r2'.dropWhile Char.isDigit
      match d3, r3 with
      | [], _ => none
      | _, '/' :: r3' =>
        let d4 := r3'.takeWhile Char.isDigit
        match d4 with
        | [] => none
        | _ => some (natOfDigits d1, natOfDigits d2, natOfDigits d3, natOfDigits d4)
      | _, _ => none
    | _, _ => none
  | _, _ => none

/-- `re.search` for the CPU-state pattern: try each start position from the
left. -/
def findAIOT : List Char → Option (Nat × Nat × Nat × Nat)
  | [] => none
  | c :: rest =>
    match matchAIOTHere (c :: rest) with
    | some r => some r
    | none => findAIOT rest

/-- Match of `gpu:([^:]+):(\d+)` at the start of `s`. -/
def matchGpuSpecHere (s : List Char) : Option (List Char × Nat) :=
  if (str "gpu:").isPrefixOf s then
    let t := s.drop 4
    let ty := t.takeWhile (fun c => c ≠ ':')
    let r := t.dropWhile (fun c => c ≠ ':')
    match ty, r with
    | [], _ => none
    | _, ':' :: r' =>
      let d := r'.takeWhile Char.isDigit
      match d with
      | [] => none
      | _ => some (ty, natOfDigits d)
    | _, _ => none
  else none

/-- `re.search` for `gpu:([^:]+):(\d+)` (GPU type and count). -/
def findGpuSpec : List Char → Option (List Char × Nat)
  | [] => none
  | c :: rest =>
    match matchGpuSpecHere (c :: rest) with
    | some r => some r
    | none => findGpuSpec rest

/-- Match of `gpu:([^:]+):\d+\(IDX:([^)]+)\)` at the start of `s`,
returning the captured index list. -/
def matchGpuUsedHere (s : List Char) : Option (List Char) :=
  if (str "gpu:").isPrefixOf s then
    let t := s.drop 4
    let ty := t.takeWhile (fun c => c ≠ ':')
    let r := t.dropWhile (fun c => c ≠ ':')
    match ty, r with
    | [], _ => none
    | _, ':' :: r' =>
      let d := r'.takeWhile Char.isDigit
      let r2 := r'.dropWhile Char.isDigit
      match d with
      | [] => none
      | _ =>
        if (str "(IDX:").isPrefixOf r2 then
          let idx := (r2.drop 5).takeWhile (fun c => c ≠ ')')
          let r3 := (r2.drop 5).dropWhile (fun c => c ≠ ')')
          match idx, r3 with
          | [], _ => none
          | _, ')' :: _ => some idx
          | _, _ => none
        else none
    | _, _ => none
  else none

/-- `re.search` for the used-GPU pattern. -/
def findGpuUsed : List Char → Option (List Char)
  | [] => none
  | c :: rest =>
    match matchGpuUsedHere (c :: rest) with
    | some r => some r
    | none => findGpuUsed rest

/-- Node record built by `get_gpu_partition_nodes` (the usage percentages
are kept as exact rationals; their `%.1f` display strings are omitted). -/
structure GpuNodeInfo where
  node_name : List Char
  total_cpus : Nat
  allocated_cpus : Nat
  memory : List Char
  allocated_memory : List Char
  gpu_type : List Char
  gpu_count : Nat
  gpu_used : Nat
  state : List Char
  partition_name : List Char
  cpu_usage_value : ℚ
  gpu_usage_value : ℚ
deriving DecidableEq, Repr

/-- Parse of one sinfo line in `get_gpu_partition_nodes` (lines 262-346):
whitespace split, CPU-state parse with `total` computed — as the code
does — as the sum of all four sub-fields, GPU parse from the Gres and
GresUsed fields. -/
def parse_gpu_node_line (partition_name line : List Char) :
    Option GpuNodeInfo :=
  let parts := splitWs line
  if parts.length < 4 then none
  else
    let node_name := parts.getD 0 []
    let cpus_info := parts.getD 1 []
    let memory := parts.getD 2 []
    let allocated_mem := parts.getD 3 []
    let ac_tc : Nat × Nat :=
      match findAIOT cpus_info with
      | some (a, i, o, t) => (a, a + i + o + t)
      | none => (0, 0)
    let allocated_cpus := ac_tc.1
    let total_cpus := ac_tc.2
    let cpu_usage_value : ℚ :=
      if total_cpus > 0 then ((allocated_cpus : ℚ) / (total_cpus : ℚ)) * 100
      else 0
    let gpu_tc : List Char × Nat :=
      if parts.length > 4 then
        match findGpuSpec (parts.getD 4 []) with
        | some (ty, n) => (ty, n)
        | none => (str "未知", 0)
      else (str "未知", 0)
    let gpu_used : Nat :=
      if parts.length > 4 then
        match findGpuUsed (if parts.length > 5 then parts.getD 5 [] else []) with
        | some idx => if idx ≠ [] then (splitOnChar ',' idx).length else 0
        | none => 0
      else 0
    let gpu_usage_value : ℚ :=
      if gpu_tc.2 > 0 then ((gpu_used : ℚ) / (gpu_tc.2 : ℚ)) * 100 else 0
    some { node_name := node_name
           total_cpus := total_cpus
           allocated_cpus := allocated_cpus
           memory := memory
           allocated_memory := allocated_mem
           gpu_type := gpu_tc.1
           gpu_count := gpu_tc.2
           gpu_used := gpu_used
           state := if parts.length > 6 then parts.getD 6 [] else str "未知"
           partition_name := partition_name
           cpu_usage_value := cpu_usage_value
           gpu_usage_value := gpu_usage_value }

/-- `get_gpu_partition_nodes` over the full sinfo stdout: strip, split into
lines, parse each (blank and short lines are skipped). -/
def get_gpu_partition_nodes (partition_name output : List Char) :
    List GpuNodeInfo :=
  (splitOnChar '\n' (pyStrip output)).filterMap
    (parse_gpu_node_line partition_name)

/-- Node deduplication of `refresh_all_nodes` (node_status.py lines
508-521): walk the list keeping the first record for each node name. -/
def dedup_nodes_aux (seen : List (List Char)) :
    List GpuNodeInfo → List GpuNodeInfo
  | [] => []
  | n :: rest =>
    if n.node_name ∈ seen then dedup_nodes_aux seen rest
    else n :: dedup_nodes_aux (n.node_name :: seen) rest

/-- Deduplicated node list (`unique_gpu_nodes` construction). -/
def dedup_nodes (nodes : List GpuNodeInfo) : List GpuNodeInfo :=
  dedup_nodes_aux [] nodes

/-- Claim C7: the code is wrong here.  For the CPU-state field `4/4/0/8`
(alloc/idle/other/total, so alloc/total = 50%), `get_gpu_partition_nodes`
computes `total_cpus = alloc + idle + other + total = 16` — double-counting,
since the fourth sub-field already is the total — and reports 25% CPU
usage instead of the 50% alloc/total ratio the spec round-trip demands.
(`get_cpu_partition_nodes`, lines 378-393, repeats the identical
computation.) -/
theorem c7_cpu_usage_divergence :
    ((parse_gpu_node_line (str "gpu")
        (str "hpc-gpu-1 4/4/0/8 192000 90000 gpu:v100:4 gpu:v100:2(IDX:0,1) mixed")).map
      GpuNodeInfo.allocated_cpus) = some 4 ∧
    ((parse_gpu_node_line (str "gpu")
        (str "hpc-gpu-1 4/4/0/8 192000 90000 gpu:v100:4 gpu:v100:2(IDX:0,1) mixed")).map
      GpuNodeInfo.total_cpus) = some 16 ∧
    ((parse_gpu_node_line (str "gpu")
        (str "hpc-gpu-1 4/4/0/8 192000 90000 gpu:v100:4 gpu:v100:2(IDX:0,1) mixed")).map
      GpuNodeInfo.cpu_usage_value) = some 25 ∧
    ((4 : ℚ) / 8) * 100 = 50 := by
  have hsplit : splitWs (str "hpc-gpu-1 4/4/0/8 192000 90000 gpu:v100:4 gpu:v100:2(IDX:0,1) mixed") =
      [str "hpc-gpu-1", str "4/4/0/8", str "192000", str "90000",
       str "gpu:v100:4", str "gpu:v100:2(IDX:0,1)", str "mixed"] := by decide
  have haiot : findAIOT (str "4/4/0/8") = some (4, 4, 0, 8) := by decide
  refine ⟨by decide, by decide, ?_, by norm_num⟩
  simp only [parse_gpu_node_line, hsplit]
  norm_num [List.getD, haiot]

/-- Claim C8 is false on the code: two parsed records for node `gpu-9`,
the first without accelerator data (Gres `(null)`, count 0) and the second
carrying `gpu:v100:4`, are deduplicated by `refresh_all_nodes` to the
*first* record — the accelerator-bearing one is dropped. -/
theorem c8_dedup_counterexample :
    (get_gpu_partition_nodes (str "gpu")
        (str "gpu-9 0/40/0/40 180000 0 (null) (null) idle") ++
      get_gpu_partition_nodes (str "free-gpu")
        (str "gpu-9 0/40/0/40 180000 0 gpu:v100:4 gpu:v100:0 idle")).map
      GpuNodeInfo.gpu_count = [0, 4] ∧
    (dedup_nodes
      (get_gpu_partition_nodes (str "gpu")
          (str "gpu-9 0/40/0/40 180000 0 (null) (null) idle") ++
        get_gpu_partition_nodes (str "free-gpu")
          (str "gpu-9 0/40/0/40 180000 0 gpu:v100:4 gpu:v100:0 idle"))).map
      GpuNodeInfo.gpu_count = [0] := by decide

/-- Records surviving deduplication never carry a node name from the `seen`
accumulator. -/
theorem dedup_nodes_aux_not_seen (l : List GpuNodeInfo) :
    ∀ (seen : List (List Char)) (m : GpuNodeInfo),
      m ∈ dedup_nodes_aux seen l → m.node_name ∉ seen := by
  induction l with
  | nil => intro seen m hm; simp [dedup_nodes_aux] at hm
  | cons n rest ih =>
    intro seen m hm
    simp only [dedup_nodes_aux] at hm
    by_cases hn : n.node_name ∈ seen
    · rw [if_pos hn] at hm
      exact ih seen m hm
    · rw [if_neg hn] at hm
      rcases List.mem_cons.mp hm with hm | hm
      · subst hm; exact hn
      · have := ih (n.node_name :: seen) m hm
        intro hseen
        exact this (List.mem_cons_of_mem _ hseen)

/-- Helper for C8: the first record for a node name is the one the
deduplication keeps, from any accumulator state not yet containing it. -/
theorem dedup_nodes_aux_keeps_first (n : GpuNodeInfo) (post : List GpuNodeInfo) :
    ∀ (pre : List GpuNodeInfo) (seen : List (List Char)),
      (∀ m ∈ pre, m.node_name ≠ n.node_name) →
      n.node_name ∉ seen →
      n ∈ dedup_nodes_aux seen (pre ++ n :: post) ∧
      ∀ m ∈ dedup_nodes_aux seen (pre ++ n :: post),
        m.node_name = n.node_name → m = n := by
  intro pre
  induction pre with
  | nil =>
    intro seen _ hns
    simp only [List.nil_append, dedup_nodes_aux, if_neg hns]
    refine ⟨List.mem_cons_self _ _, ?_⟩
    intro m hm hname
    rcases List.mem_cons.mp hm with hm | hm
    · exact hm
    · have := dedup_nodes_aux_not_seen post (n.node_name :: seen) m hm
      exact absurd (hname ▸ List.mem_cons_self _ _) this
  | cons p pre' ih =>
    intro seen hpre hns
    simp only [List.cons_append, dedup_nodes_aux]
    have hpn : p.node_name ≠ n.node_name := hpre p (List.mem_cons_self _ _)
    have hpre' : ∀ m ∈ pre', m.node_name ≠ n.node_name := fun m hm =>
      hpre m (List.mem_cons_of_mem _ hm)
    by_cases hp : p.node_name ∈ seen
    · rw [if_pos hp]
      exact ih seen hpre' hns
    · rw [if_neg hp]
      have hns' : n.node_name ∉ p.node_name :: seen := by
        intro hmem
        rcases List.mem_cons.mp hmem with hmem | hmem
        · exact hpn hmem.symm
        · exact hns hmem
      obtain ⟨h1, h2⟩ := ih (p.node_name :: seen) hpre' hns'
      refine ⟨List.mem_cons_of_mem _ h1, ?_⟩
      intro m hm hname
      rcases List.mem_cons.mp hm with hm | hm
      · exact absurd (hm ▸ hname) hpn
      · exact h2 m hm hname

/-- Claim C8 amended: for a repeated node name, `refresh_all_nodes` keeps
exactly the first record encountered for that name (within its GPU or CPU
category), regardless of which record carries accelerator data. -/
theorem c8_dedup_keeps_first_amended (pre post : List GpuNodeInfo)
    (n : GpuNodeInfo) (h : ∀ m ∈ pre, m.node_name ≠ n.node_name) :
    n ∈ dedup_nodes (pre ++ n :: post) ∧
    ∀ m ∈ dedup_nodes (pre ++ n :: post), m.node_name = n.node_name → m = n :=
  dedup_nodes_aux_keeps_first n post pre [] h (by simp)

/-- Concrete node record for the C8 witness. -/
def nodeRecA : GpuNodeInfo :=
  { node_name := str "gpu-9", total_cpus := 80, allocated_cpus := 0
    memory := str "180000", allocated_memory := str "0"
    gpu_type := str "未知", gpu_count := 0, gpu_used := 0
    state := str "idle", partition_name := str "gpu"
    cpu_usage_value := 0, gpu_usage_value := 0 }

/-- Second concrete node record for the C8 witness (a different name). -/
def nodeRecB : GpuNodeInfo :=
  { node_name := str "gpu-7", total_cpus := 80, allocated_cpus := 0
    memory := str "180000", allocated_memory := str "0"
    gpu_type := str "v100", gpu_count := 4, gpu_used := 0
    state := str "idle", partition_name := str "free-gpu"
    cpu_usage_value := 0, gpu_usage_value := 0 }

/-- Witness for the amended C8 at a concrete list: `nodeRecB` is the first
record with its name and is kept. -/
theorem c8_dedup_keeps_first_amended_witness :
    nodeRecB ∈ dedup_nodes ([nodeRecA] ++ nodeRecB :: []) ∧
    ∀ m ∈ dedup_nodes ([nodeRecA] ++ nodeRecB :: []),
      m.node_name = nodeRecB.node_name → m = nodeRecB :=
  c8_dedup_keeps_first_amended [nodeRecA] [] nodeRecB (by decide)

/-!
Job submission flow (ui/vscode_widget.py `VSCodeWidget.submit_job`,
lines 610-698).  The method first calls
`vscode_manager.get_running_vscode_jobs()` — a `squeue` over the control
channel — possibly cancels an old job, and only then performs the
account/GPU cross-validation; `submit_vscode_job` (the `sbatch`) is reached
only when validation passes.  Manager invocations that execute remote
commands are recorded as an ordered trace.
-/

/-- Manager calls made by `submit_job` that execute remote commands. -/
inductive MgrCall where
  | getRunningJobs
  | cancelJob (job_id : List Char)
  | submitVSCodeJob (account : List Char) (gpu_type : Option (List Char))
deriving DecidableEq, Repr

/-- Outcome of the `submit_job` flow. -/
inductive SubmitOutcome where
  | errorShown (msg : List Char)
  | keptOldJob
  | submitAttempted
deriving DecidableEq, Repr

/-- Validation tail of `submit_job` (lines 660-678): account presence and
the two GPU/account eligibility checks, then the `submit_vscode_job`
invocation. -/
def submit_job_validate (calls : List MgrCall) (account : Option (List Char))
    (gpu_type : Option (List Char)) : List MgrCall × SubmitOutcome :=
  match account with
  | none => (calls, SubmitOutcome.errorShown (str "Please select an account"))
  | some acct =>
    let is_gpu_account := containsSeq (str "gpu") (acct.map Char.toLower)
    let is_requesting_gpu := gpu_type.isSome
    if is_requesting_gpu && !is_gpu_account then
      (calls, SubmitOutcome.errorShown
        (str "Using GPU resources requires an account with GPU keyword"))
    else if is_gpu_account && !is_requesting_gpu then
      (calls, SubmitOutcome.errorShown
        (str "Using GPU account requires selecting GPU resources"))
    else
      (calls ++ [MgrCall.submitVSCodeJob acct gpu_type],
        SubmitOutcome.submitAttempted)

/-- `VSCodeWidget.submit_job`: `running_jobs` is what
`get_running_vscode_jobs` returns (id/status pairs; the call itself is the
first remote command), `userConfirmsCancel` the answer to the dialog and
`cancelSucceeds` the result of `cancel_job` on the old job. -/
def submit_job (running_jobs : List (List Char × List Char))
    (userConfirmsCancel : Bool) (cancelSucceeds : Bool)
    (account : Option (List Char)) (gpu_type : Option (List Char)) :
    List MgrCall × SubmitOutcome :=
  let calls0 := [MgrCall.getRunningJobs]
  match running_jobs.find? (fun j => j.2 = str "RUNNING") with
  | some j =>
    if userConfirmsCancel then
      let calls1 := calls0 ++ [MgrCall.cancelJob j.1]
      if cancelSucceeds then
        submit_job_validate calls1 account gpu_type
      else
        (calls1, SubmitOutcome.errorShown
          (str "Unable to cancel old job, please cancel manually and try again"))
    else
      (calls0, SubmitOutcome.keptOldJob)
  | none => submit_job_validate calls0 account gpu_type

/-- Combined eligibility-mismatch condition of the two checks. -/
def validationMismatch (acct : List Char) (gpu_type : Option (List Char)) : Bool :=
  (gpu_type.isSome && !containsSeq (str "gpu") (acct.map Char.toLower)) ||
  (containsSeq (str "gpu") (acct.map Char.toLower) && !gpu_type.isSome)

/-- Claim C6 is false on the code: a GPU request against a non-GPU account
fails validation, but a remote command *has* already been executed — the
`get_running_vscode_jobs` squeue pre-check runs before validation, so the
command trace is non-empty. -/
theorem c6_remote_call_before_validation_counterexample :
    (submit_job [] true true (some (str "panteater_lab")) (some (str "v100"))).2 =
      SubmitOutcome.errorShown
        (str "Using GPU resources requires an account with GPU keyword") ∧
    (submit_job [] true true (some (str "panteater_lab")) (some (str "v100"))).1 =
      [MgrCall.getRunningJobs] := by decide

/-- Claim C6 amended: an eligibility mismatch between account and GPU
request always fails validation before the submission command — no
`submit_vscode_job` (sbatch) invocation occurs in the trace — although the
running-jobs squeue pre-check has already executed over the control
channel. -/
theorem c6_no_submit_on_mismatch_amended
    (running_jobs : List (List Char × List Char))
    (userConfirmsCancel cancelSucceeds : Bool)
    (acct : List Char) (gpu_type : Option (List Char))
    (h : validationMismatch acct gpu_type = true) :
    ∀ a g, MgrCall.submitVSCodeJob a g ∉
      (submit_job running_jobs userConfirmsCancel cancelSucceeds
        (some acct) gpu_type).1 := by
  intro a g
  have hval : ∀ calls, MgrCall.submitVSCodeJob a g ∉ calls →
      MgrCall.submitVSCodeJob a g ∉
        (submit_job_validate calls (some acct) gpu_type).1 := by
    intro calls hc
    simp only [submit_job_validate, validationMismatch] at h ⊢
    rcases Bool.or_eq_true_iff.mp h with h1 | h1
    · rw [if_pos h1]
      exact hc
    · rw [if_neg ?_, if_pos h1]
      · exact hc
      · intro h2
        obtain ⟨hreq, hacc⟩ := Bool.and_eq_true_iff.mp h2
        obtain ⟨hacc', hreq'⟩ := Bool.and_eq_true_iff.mp h1
        rw [hacc'] at hacc
        simp at hacc
  simp only [submit_job]
  rcases hfind : running_jobs.find? (fun j => j.2 = str "RUNNING") with _ | j <;>
    simp only [hfind]
  · exact hval [MgrCall.getRunningJobs] (by simp)
  · cases userConfirmsCancel with
    | false => simp
    | true =>
      cases cancelSucceeds with
      | false => simp
      | true =>
        simp only [if_true]
        exact hval [MgrCall.getRunningJobs, MgrCall.cancelJob j.1] (by simp)

/-- Witness for the amended C6: concrete mismatching inputs. -/
theorem c6_no_submit_on_mismatch_amended_witness :
    validationMismatch (str "panteater_lab") (some (str "v100")) = true ∧
    MgrCall.submitVSCodeJob (str "panteater_lab") (some (str "v100")) ∉
      (submit_job [] true true (some (str "panteater_lab"))
        (some (str "v100"))).1 :=
  ⟨by decide,
   c6_no_submit_on_mismatch_amended [] true true (str "panteater_lab")
     (some (str "v100")) (by decide) (str "panteater_lab") (some (str "v100"))⟩

/-!
Local SSH configuration synchronization (vscode_helper.py
`VSCodeManager._add_ssh_config_to_local`, lines 627-710, and
`_remove_ssh_config_from_local`, lines 712-752).  The file content
transformation is embedded: reading `~/.ssh/config` and writing it back
become the `existing` argument and the returned content; `os` permission
calls have no content effect.  The non-greedy DOTALL patterns
`# === BEGIN … (JobID: .*?) ===.*?# === END … (JobID: .*?) ===` (strip any
block) and the job-specific variant (removal) are implemented as literal
marker searches; for these patterns, lazy `.*?` quantifiers followed by a
mandatory literal are exactly "continue at the first occurrence of the next
literal", since retrying a later occurrence can never succeed where the
first fails.
-/

/-- Literal before the first `.*?` of the block pattern. -/
def beginMark : List Char := str "# === BEGIN HPC App VSCode Configuration (JobID: "

/-- Literal `) ===` closing both marker lines. -/
def closeMark : List Char := str ") ==="

/-- Literal opening the end-marker line. -/
def endMark : List Char := str "# === END HPC App VSCode Configuration (JobID: "

/-- Remainder of `s` after the first occurrence of `lit` (the lazy-`.*?`
step of the pattern), `none` when `lit` does not occur. -/
def findLit (lit : List Char) : List Char → Option (List Char)
  | [] => if lit.isPrefixOf ([] : List Char) then some [] else none
  | c :: rest =>
    if lit.isPrefixOf (c :: rest) then some ((c :: rest).drop lit.length)
    else findLit lit rest

/-- Match of the generic strip pattern (any job id) at the start of `s`,
returning the text after the match. -/
def matchBlock (s : List Char) : Option (List Char) :=
  if beginMark.isPrefixOf s then
    match findLit closeMark (s.drop beginMark.length) with
    | some s1 =>
      match findLit endMark s1 with
      | some s2 => findLit closeMark s2
      | none => none
    | none => none
  else none

/-- Begin-marker line content of the job-specific removal pattern. -/
def beginMarkFor (job_id : List Char) : List Char :=
  beginMark ++ job_id ++ closeMark

/-- End-marker line content of the job-specific removal pattern. -/
def endMarkFor (job_id : List Char) : List Char :=
  endMark ++ job_id ++ closeMark

/-- Match of the job-specific removal pattern at the start of `s`. -/
def matchBlockFor (job_id : List Char) (s : List Char) : Option (List Char) :=
  if (beginMarkFor job_id).isPrefixOf s then
    findLit (endMarkFor job_id) (s.drop (beginMarkFor job_id).length)
  else none

/-- Single left-to-right scan of `re.sub(pattern, '', s)`: at each position
try the matcher; on a match, continue after it; otherwise keep the
character.  Returns the text with matches removed and the match count.
`fuel` only serves structural termination (matches are non-empty, so
`length + 1` fuel always suffices). -/
def scanSub (m : List Char → Option (List Char)) :
    Nat → List Char → List Char × Nat
  | 0, s => (s, 0)
  | _ + 1, [] => ([], 0)
  | fuel + 1, c :: rest =>
    match m (c :: rest) with
    | some r =>
      let p := scanSub m fuel r
      (p.1, p.2 + 1)
    | none =>
      let p := scanSub m fuel rest
      (c :: p.1, p.2)

/-- The scan with sufficient fuel. -/
def scanAll (m : List Char → Option (List Char)) (s : List Char) :
    List Char × Nat :=
  scanSub m (s.length + 1) s

/-- `pattern.sub('', s)` for the generic strip pattern (line 695). -/
def subBlocks (s : List Char) : List Char := (scanAll matchBlock s).1

/-- Number of generic-pattern blocks `re.sub` finds in `s`. -/
def countBlocks (s : List Char) : Nat := (scanAll matchBlock s).2

/-- Number of blocks for a specific job id (matches of the removal
pattern of `_remove_ssh_config_from_local`). -/
def countBlocksFor (job_id : List Char) (s : List Char) : Nat :=
  (scanAll (matchBlockFor job_id) s).2

/-- Content of `_remove_ssh_config_from_local` after the rewrite (the file
is written only when a match exists; the written content equals the
pattern-sub result, and without a match the content is unchanged, which the
sub also models). -/
def remove_ssh_config_from_local (job_id existing : List Char) : List Char :=
  (scanAll (matchBlockFor job_id) existing).1

/-- Body of the configuration block between the two marker lines, as laid
out by the `new_config` f-string (lines 671-689): the jump-host entry
`hpc_login_<job_id>` for the login node and the proxied target-host
entry. -/
def midBody (login_host username identity_file job_id cfg_hostname
    cfg_port : List Char) : List Char :=
  str "\n\nHost hpc_login_" ++ job_id ++
  str "\n    HostName " ++ login_host ++
  str "\n    User " ++ username ++
  str "\n    IdentityFile " ++ identity_file ++
  str "\n\n\nHost " ++ cfg_hostname ++
  str "\n    HostName " ++ cfg_hostname ++
  str "\n    User " ++ username ++
  str "\n    Port " ++ cfg_port ++
  str "\n    IdentityFile " ++ identity_file ++
  str "\n    ProxyJump hpc_login_" ++ job_id ++
  str "\n    UserKnownHostsFile /dev/null\n    StrictHostKeyChecking no\n"

/-- Complete marker-delimited block for a job. -/
def blockFor (login_host username identity_file job_id cfg_hostname
    cfg_port : List Char) : List Char :=
  beginMark ++ job_id ++ closeMark ++
    midBody login_host username identity_file job_id cfg_hostname cfg_port ++
    endMark ++ job_id ++ closeMark

/-- The `new_config` string: newline, block, newline (the f-string opens
and closes with a newline). -/
def newConfig (login_host username identity_file job_id cfg_hostname
    cfg_port : List Char) : List Char :=
  str "\n" ++
    blockFor login_host username identity_file job_id cfg_hostname cfg_port ++
    str "\n"

/-- `_add_ssh_config_to_local` content transformation (lines 644-701):
strip every existing HPC App block from the previous content, then write
the stripped remainder (rstripped, newline-terminated, and only if
non-blank) followed by `new_config`. -/
def add_ssh_config_to_local (login_host username identity_file job_id
    cfg_hostname cfg_port existing : List Char) : List Char :=
  let stripped := subBlocks existing
  (if pyStrip stripped ≠ [] then pyRstrip stripped ++ str "\n" else []) ++
    newConfig login_host username identity_file job_id cfg_hostname cfg_port

/-- Bridge between the executable `isPrefixOf` and the `<+:` relation. -/
theorem isPrefixOf_eq_true {p s : List Char} :
    p.isPrefixOf s = true ↔ p <+: s := by
  induction p generalizing s with
  | nil => simp [List.isPrefixOf]
  | cons a p ih =>
    cases s with
    | nil => simp [List.isPrefixOf]
    | cons b s =>
      simp only [List.isPrefixOf, Bool.and_eq_true, beq_iff_eq,
        List.cons_prefix_cons]
      exact and_congr Iff.rfl ih

/-- A pattern not containing `c` that is a prefix of `W ++ c :: Z` already
is a prefix of `W`. -/
theorem pre_of_append_cons {pat W Z : List Char} {c : Char}
    (h : pat <+: W ++ c :: Z) (hc : c ∉ pat) : pat <+: W := by
  induction pat generalizing W with
  | nil => exact ⟨W, rfl⟩
  | cons x pt ih =>
    cases W with
    | nil =>
      rw [List.nil_append, List.cons_prefix_cons] at h
      exact absurd (h.1 ▸ List.mem_cons_self x pt) hc
    | cons w W' =>
      rw [List.cons_append, List.cons_prefix_cons] at h
      have hct : c ∉ pt := fun hm => hc (List.mem_cons_of_mem _ hm)
      exact List.cons_prefix_cons.mpr ⟨h.1, ih h.2 hct⟩

/-- `pat` occurs nowhere in `s` (as a prefix of any suffix). -/
def NoPre (pat s : List Char) : Prop := ∀ i, ¬ pat <+: List.drop i s

/-- `pat` matches at no position inside `U` when followed by `V`. -/
def NoOccAt (pat U V : List Char) : Prop :=
  ∀ i < U.length, ¬ pat <+: (List.drop i U ++ V)

/-- `containsSeq` (Python `in`) decides `NoPre`. -/
theorem noPre_of_not_contains {pat s : List Char}
    (h : containsSeq pat s = false) : NoPre pat s := by
  induction s with
  | nil =>
    intro i hpre
    rw [List.drop_nil, List.prefix_nil] at hpre
    subst hpre
    simp [containsSeq, List.isEmpty] at h
  | cons c rest ih =>
    simp only [containsSeq, Bool.or_eq_false_iff] at h
    intro i hpre
    match i with
    | 0 =>
      rw [List.drop_zero] at hpre
      exact absurd (isPrefixOf_eq_true.mpr hpre) (by simp [h.1])
    | i + 1 =>
      exact ih h.2 i hpre

/-- `NoPre` transfers from a list to any of its prefixes. -/
theorem noPre_of_isPre {pat X S : List Char} (hX : X <+: S)
    (h : NoPre pat S) : NoPre pat X := by
  obtain ⟨T, rfl⟩ := hX
  intro i hpre
  by_cases hi : i ≤ X.length
  · have hdrop : List.drop i (X ++ T) = List.drop i X ++ T := by
      rw [List.drop_append_eq_append_drop, Nat.sub_eq_zero_of_le hi,
        List.drop_zero]
    exact h i (hdrop ▸ hpre.trans (List.prefix_append _ _))
  · rw [List.drop_eq_nil_of_le (by omega)] at hpre
    rw [List.prefix_nil] at hpre
    subst hpre
    exact h 0 ⟨_, rfl⟩

/-- Splitting `NoOccAt` across an append. -/
theorem noOccAt_append {pat U1 U2 V : List Char}
    (h1 : NoOccAt pat U1 (U2 ++ V)) (h2 : NoOccAt pat U2 V) :
    NoOccAt pat (U1 ++ U2) V := by
  intro i hi
  by_cases hle : i ≤ U1.length
  · rcases Nat.lt_or_ge i U1.length with hlt | hge
    · have hdrop : List.drop i (U1 ++ U2) = List.drop i U1 ++ U2 := by
        rw [List.drop_append_eq_append_drop, Nat.sub_eq_zero_of_le hle,
          List.drop_zero]
      rw [hdrop, List.append_assoc]
      exact h1 i hlt
    · have hi1 : i = U1.length := le_antisymm hle hge
      subst hi1
      rw [List.drop_left]
      rw [List.length_append] at hi
      have h20 : 0 < U2.length := by omega
      have := h2 0 h20
      rwa [List.drop_zero] at this
  · have hdrop : List.drop i (U1 ++ U2) = List.drop (i - U1.length) U2 := by
      rw [List.drop_append_eq_append_drop,
        List.drop_eq_nil_of_le (by omega), List.nil_append]
    rw [hdrop]
    rw [List.length_append] at hi
    exact h2 (i - U1.length) (by omega)

/-- `NoOccAt` for a single character position. -/
theorem noOccAt_single {pat V : List Char} {c : Char}
    (h : ¬ pat <+: c :: V) : NoOccAt pat [c] V := by
  intro i hi
  match i, hi with
  | 0, _ => simpa using h

/-- Prepending one explicitly-checked position to `NoOccAt`. -/
theorem noOccAt_cons {pat U V : List Char} {c : Char}
    (h0 : ¬ pat <+: c :: (U ++ V)) (h : NoOccAt pat U V) :
    NoOccAt pat (c :: U) V := by
  intro i hi
  match i with
  | 0 => simpa using h0
  | i + 1 =>
    rw [List.drop_succ_cons]
    exact h i (by simpa using hi)

/-- Positions whose first character differs from the pattern head never
start a match. -/
theorem noOccAt_of_head_ne {p0 : Char} {pt U V : List Char}
    (hU : ∀ c ∈ U, c ≠ p0) : NoOccAt (p0 :: pt) U V := by
  intro i hi hpre
  rw [List.drop_eq_getElem_cons hi, List.cons_append,
    List.cons_prefix_cons] at hpre
  exact hU _ (List.getElem_mem hi) hpre.1.symm

/-- A `NoPre` list followed by a character outside the pattern yields
`NoOccAt` for any continuation. -/
theorem noOccAt_of_noPre {pat X W : List Char} {d : Char}
    (h : NoPre pat X) (hd : d ∉ pat) : NoOccAt pat X (d :: W) := by
  intro i hi hpre
  exact h i (pre_of_append_cons hpre hd)

/-- `dropWhile` is idempotent. -/
theorem dropWhile_self_idem {p : Char → Bool} (l : List Char) :
    List.dropWhile p (List.dropWhile p l) = List.dropWhile p l := by
  induction l with
  | nil => rfl
  | cons c rest ih =>
    by_cases hc : p c
    · simpa [List.dropWhile, hc] using ih
    · simp [List.dropWhile, hc]

/-- `pyRstrip` produces a prefix of its input. -/
theorem pyRstrip_isPre (s : List Char) : pyRstrip s <+: s := by
  have h := @List.dropWhile_suffix Char s.reverse isPySpace
  have := List.reverse_prefix.mpr h
  simpa [pyRstrip] using this

/-- Appending whitespace does not change `pyRstrip`. -/
theorem pyRstrip_append_ws {A W : List Char}
    (hW : ∀ c ∈ W, isPySpace c = true) : pyRstrip (A ++ W) = pyRstrip A := by
  unfold pyRstrip
  rw [List.reverse_append, List.dropWhile_append]
  have hempty : List.dropWhile isPySpace W.reverse = [] :=
    List.dropWhile_eq_nil_iff.mpr (fun c hc => hW c (List.mem_reverse.mp hc))
  rw [hempty]
  simp

/-- `pyRstrip` is idempotent. -/
theorem pyRstrip_idem (s : List Char) : pyRstrip (pyRstrip s) = pyRstrip s := by
  unfold pyRstrip
  rw [List.reverse_reverse, dropWhile_self_idem]

/-- `pyStrip` after `pyRstrip` is plain `pyStrip`. -/
theorem pyStrip_pyRstrip (s : List Char) : pyStrip (pyRstrip s) = pyStrip s := by
  unfold pyStrip
  rw [pyRstrip_idem]

/-- Appending whitespace does not change `pyStrip`. -/
theorem pyStrip_append_ws {A W : List Char}
    (hW : ∀ c ∈ W, isPySpace c = true) : pyStrip (A ++ W) = pyStrip A := by
  unfold pyStrip
  rw [pyRstrip_append_ws hW]

/-- Unfolding equation of `findLit` at a cons cell. -/
theorem findLit_cons_eq (lit : List Char) (c : Char) (w : List Char) :
    findLit lit (c :: w) =
      if lit.isPrefixOf (c :: w) = true then some ((c :: w).drop lit.length)
      else findLit lit w := rfl

/-- `findLit` skips over a region with no occurrence of the literal. -/
theorem findLit_append_of_noOcc {lit U V : List Char}
    (h : NoOccAt lit U V) : findLit lit (U ++ V) = findLit lit V := by
  induction U with
  | nil => rfl
  | cons u U' ih =>
    have h0 : ¬ lit <+: u :: (U' ++ V) := by
      have := h 0 (by simp)
      simpa using this
    have hnp : ¬ lit.isPrefixOf (u :: (U' ++ V)) = true := fun hb =>
      h0 (isPrefixOf_eq_true.mp hb)
    rw [List.cons_append, findLit_cons_eq, if_neg hnp]
    exact ih (fun i hi => h (i + 1) (by simpa using Nat.succ_lt_succ hi))

/-- `findLit` at an exact occurrence returns the tail. -/
theorem findLit_self {lit r : List Char} (h : lit ≠ []) :
    findLit lit (lit ++ r) = some r := by
  cases lit with
  | nil => exact absurd rfl h
  | cons c lt =>
    rw [List.cons_append]
    have hp : (c :: lt).isPrefixOf (c :: (lt ++ r)) = true :=
      isPrefixOf_eq_true.mpr (by rw [← List.cons_append]; exact List.prefix_append _ _)
    simp only [findLit, hp, if_true]
    rw [← List.cons_append, List.drop_left]

/-- Length accounting for `findLit`. -/
theorem findLit_bound {lit s r : List Char} (h : findLit lit s = some r) :
    r.length + lit.length ≤ s.length := by
  induction s with
  | nil =>
    by_cases hp : lit.isPrefixOf ([] : List Char) = true
    · have : lit = [] := by
        have := isPrefixOf_eq_true.mp hp
        rwa [List.prefix_nil] at this
      simp only [findLit, hp, if_true, Option.some.injEq] at h
      subst h
      simp [this]
    · simp only [findLit] at h
      rw [if_neg hp] at h
      exact absurd h (by simp)
  | cons c rest ih =>
    by_cases hp : lit.isPrefixOf (c :: rest) = true
    · simp only [findLit, hp, if_true, Option.some.injEq] at h
      subst h
      have hle : lit.length ≤ (c :: rest).length :=
        (isPrefixOf_eq_true.mp hp).length_le
      rw [List.length_drop]
      omega
    · simp only [findLit, hp, Bool.false_eq_true, if_false] at h
      have := ih h
      simp only [List.length_cons]
      omega

/-- A position not starting with the begin marker never matches the
generic pattern. -/
theorem matchBlock_eq_none {s : List Char} (h : ¬ beginMark <+: s) :
    matchBlock s = none := by
  unfold matchBlock
  rw [if_neg fun hb => h (isPrefixOf_eq_true.mp hb)]

/-- A position not starting with the begin marker never matches the
job-specific pattern either. -/
theorem matchBlockFor_eq_none (job_id : List Char) {s : List Char}
    (h : ¬ beginMark <+: s) : matchBlockFor job_id s = none := by
  unfold matchBlockFor
  rw [if_neg]
  intro hb
  have hbf := isPrefixOf_eq_true.mp hb
  have hbm : beginMark <+: beginMarkFor job_id := by
    rw [beginMarkFor, List.append_assoc]
    exact List.prefix_append _ _
  exact h (hbm.trans hbf)

/-- Matchers whose matches are shorter than their input. -/
def Shrinking (m : List Char → Option (List Char)) : Prop :=
  ∀ s r, m s = some r → r.length < s.length

/-- The generic matcher shrinks. -/
theorem matchBlock_shrinking : Shrinking matchBlock := by
  intro s r h
  unfold matchBlock at h
  by_cases hp : beginMark.isPrefixOf s = true
  · rw [if_pos hp] at h
    rcases hf1 : findLit closeMark (s.drop beginMark.length) with _ | s1 <;>
      rw [hf1] at h <;> dsimp only at h
    · exact absurd h (by simp)
    · rcases hf2 : findLit endMark s1 with _ | s2 <;> rw [hf2] at h <;>
        dsimp only at h
      · exact absurd h (by simp)
      · have h1 := findLit_bound hf1
        have h2 := findLit_bound hf2
        have h3 := findLit_bound h
        rw [List.length_drop] at h1
        have hle : beginMark.length ≤ s.length :=
          (isPrefixOf_eq_true.mp hp).length_le
        have hbm : 0 < beginMark.length := by decide
        omega
  · rw [if_neg hp] at h
    exact absurd h (by simp)

/-- The job-specific matcher shrinks. -/
theorem matchBlockFor_shrinking (job_id : List Char) :
    Shrinking (matchBlockFor job_id) := by
  intro s r h
  unfold matchBlockFor at h
  by_cases hp : (beginMarkFor job_id).isPrefixOf s = true
  · rw [if_pos hp] at h
    have h1 := findLit_bound h
    rw [List.length_drop] at h1
    have hle : (beginMarkFor job_id).length ≤ s.length :=
      (isPrefixOf_eq_true.mp hp).length_le
    have hbm : 0 < (beginMarkFor job_id).length := by
      have h49 : beginMark.length = 49 := by decide
      simp only [beginMarkFor, List.length_append]
      omega
    omega
  · rw [if_neg hp] at h
    exact absurd h (by simp)

/-- Fuel irrelevance of the scan (any fuel above the length agrees). -/
theorem scanSub_congr {m : List Char → Option (List Char)}
    (hm : Shrinking m) :
    ∀ f1 f2 s, s.length < f1 → s.length < f2 →
      scanSub m f1 s = scanSub m f2 s := by
  intro f1
  induction f1 with
  | zero => intro f2 s h1 _; omega
  | succ f1' ih =>
    intro f2 s h1 h2
    cases f2 with
    | zero => omega
    | succ f2' =>
      cases s with
      | nil => rfl
      | cons c rest =>
        rcases hc : m (c :: rest) with _ | r
        · simp only [scanSub, hc]
          rw [ih f2' rest (by simp at h1; omega) (by simp at h2; omega)]
        · simp only [scanSub, hc]
          have hr := hm _ _ hc
          simp only [List.length_cons] at hr h1 h2
          rw [ih f2' r (by omega) (by omega)]

/-- Scan step at a non-matching position. -/
theorem scanAll_cons_none {m : List Char → Option (List Char)} {c : Char}
    {s : List Char} (hc : m (c :: s) = none) :
    scanAll m (c :: s) = (c :: (scanAll m s).1, (scanAll m s).2) := by
  unfold scanAll
  show scanSub m (s.length + 1 + 1) (c :: s) = _
  simp only [scanSub, hc]

/-- Scan step at a matching position. -/
theorem scanAll_cons_some {m : List Char → Option (List Char)}
    (hm : Shrinking m) {c : Char} {s r : List Char}
    (hc : m (c :: s) = some r) :
    scanAll m (c :: s) = ((scanAll m r).1, (scanAll m r).2 + 1) := by
  unfold scanAll
  show scanSub m (s.length + 1 + 1) (c :: s) = _
  simp only [scanSub, hc]
  have hr := hm _ _ hc
  simp only [List.length_cons] at hr
  rw [scanSub_congr hm (s.length + 1) (r.length + 1) r (by omega) (by omega)]

/-- Scan at a matching position of a non-empty input. -/
theorem scanAll_match {m : List Char → Option (List Char)}
    (hm : Shrinking m) {s r : List Char} (hc : m s = some r) (hs : s ≠ []) :
    scanAll m s = ((scanAll m r).1, (scanAll m r).2 + 1) := by
  cases s with
  | nil => exact absurd rfl hs
  | cons c rest => exact scanAll_cons_some hm hc

/-- The scan copies a region in which the matcher never fires. -/
theorem scanAll_append_none {m : List Char → Option (List Char)}
    {U V : List Char} (h : ∀ i < U.length, m (List.drop i U ++ V) = none) :
    scanAll m (U ++ V) = (U ++ (scanAll m V).1, (scanAll m V).2) := by
  induction U with
  | nil => simp
  | cons u U' ih =>
    rw [List.cons_append]
    have h0 : m (u :: (U' ++ V)) = none := by
      have := h 0 (by simp)
      simpa using this
    rw [scanAll_cons_none h0,
      ih (fun i hi => by
        have := h (i + 1) (by simpa using Nat.succ_lt_succ hi)
        simpa using this)]
    simp

/-- The generic scan copies a begin-marker-free region. -/
theorem scanAll_mB_append {U V : List Char} (h : NoOccAt beginMark U V) :
    scanAll matchBlock (U ++ V) =
      (U ++ (scanAll matchBlock V).1, (scanAll matchBlock V).2) :=
  scanAll_append_none (fun i hi => matchBlock_eq_none (h i hi))

/-- The job-specific scan copies a begin-marker-free region. -/
theorem scanAll_mBF_append (job_id : List Char) {U V : List Char}
    (h : NoOccAt beginMark U V) :
    scanAll (matchBlockFor job_id) (U ++ V) =
      (U ++ (scanAll (matchBlockFor job_id) V).1,
        (scanAll (matchBlockFor job_id) V).2) :=
  scanAll_append_none (fun i hi => matchBlockFor_eq_none job_id (h i hi))

/-- Digits are neither `#` nor `)` nor a newline. -/
theorem char_digit_ne {c : Char} (h : c.isDigit = true) :
    c ≠ '#' ∧ c ≠ ')' ∧ c ≠ '\n' := by
  refine ⟨fun e => ?_, fun e => ?_, fun e => ?_⟩ <;>
    (subst e; exact absurd h (by decide))

/-- Character exclusion distributes over an append. -/
theorem forall_ne_append {A B : List Char} {x : Char}
    (ha : ∀ c ∈ A, c ≠ x) (hb : ∀ c ∈ B, c ≠ x) : ∀ c ∈ A ++ B, c ≠ x := by
  intro c hc
  rcases List.mem_append.mp hc with h | h
  exacts [ha c h, hb c h]

/-- Head-characters version of `noOccAt_of_head_ne` keyed on `head?`. -/
theorem noOccAt_of_head {pat U V : List Char} {p0 : Char}
    (hpat : pat.head? = some p0) (hU : ∀ c ∈ U, c ≠ p0) : NoOccAt pat U V := by
  cases pat with
  | nil => simp at hpat
  | cons q qt =>
    simp only [List.head?_cons, Option.some.injEq] at hpat
    subst hpat
    exact noOccAt_of_head_ne hU

/-- The block body between the marker lines contains no `#` when the job id
is numeric and no parameter contains `#`. -/
theorem midBody_no_hash {lg usr idf jd hn prt : List Char}
    (hjd : ∀ c ∈ jd, c.isDigit = true)
    (hlg : ∀ c ∈ lg, c ≠ '#') (husr : ∀ c ∈ usr, c ≠ '#')
    (hidf : ∀ c ∈ idf, c ≠ '#') (hhn : ∀ c ∈ hn, c ≠ '#')
    (hprt : ∀ c ∈ prt, c ≠ '#') :
    ∀ c ∈ midBody lg usr idf jd hn prt, c ≠ '#' := by
  have hj : ∀ c ∈ jd, c ≠ '#' := fun c hc => (char_digit_ne (hjd c hc)).1
  unfold midBody
  repeat' apply forall_ne_append
  all_goals first
    | decide
    | exact hj
    | exact hlg
    | exact husr
    | exact hidf
    | exact hhn
    | exact hprt

/-- `closeMark` begins with a closing parenthesis. -/
theorem closeMark_cons : closeMark = ')' :: str " ===" := rfl

/-- `beginMark` begins with a hash. -/
theorem beginMark_cons :
    beginMark = '#' :: str " === BEGIN HPC App VSCode Configuration (JobID: " := rfl

/-- `endMark` begins with a hash. -/
theorem endMark_cons :
    endMark = '#' :: str " === END HPC App VSCode Configuration (JobID: " := rfl

/-- The end-marker line for any job id is not empty. -/
theorem endMarkFor_ne_nil (jd : List Char) : endMarkFor jd ≠ [] := by
  intro he
  have hl := congrArg List.length he
  have h47 : endMark.length = 47 := by decide
  simp only [endMarkFor, List.length_append, List.length_nil] at hl
  omega

/-- Two distinct digit strings followed by `)` never align as prefixes. -/
theorem digit_close_not_pre {A B : List Char}
    (hA : ∀ c ∈ A, c.isDigit = true) (hB : ∀ c ∈ B, c.isDigit = true)
    (hne : A ≠ B) :
    ∀ r t : List Char, ¬ (A ++ ')' :: r <+: B ++ ')' :: t) := by
  induction A generalizing B with
  | nil =>
    intro r t hpre
    cases B with
    | nil => exact hne rfl
    | cons b B' =>
      rw [List.nil_append, List.cons_append, List.cons_prefix_cons] at hpre
      have hd := hB b (List.mem_cons_self _ _)
      rw [← hpre.1] at hd
      exact absurd hd (by decide)
  | cons a A' ih =>
    intro r t hpre
    cases B with
    | nil =>
      rw [List.cons_append, List.nil_append, List.cons_prefix_cons] at hpre
      have hd := hA a (List.mem_cons_self _ _)
      rw [hpre.1] at hd
      exact absurd hd (by decide)
    | cons b B' =>
      rw [List.cons_append, List.cons_append, List.cons_prefix_cons] at hpre
      have hA' : ∀ c ∈ A', c.isDigit = true := fun c hc =>
        hA c (List.mem_cons_of_mem _ hc)
      have hB' : ∀ c ∈ B', c.isDigit = true := fun c hc =>
        hB c (List.mem_cons_of_mem _ hc)
      have hne' : A' ≠ B' := fun he => hne (by rw [hpre.1, he])
      exact ih hA' hB' hne' r t hpre.2

/-- The begin marker is never a prefix of text starting with the end-marker
line (they differ at `BEG`/`END`). -/
theorem bm_not_pre_em (W : List Char) : ¬ beginMark <+: endMark ++ W := by
  intro h
  obtain ⟨t, ht⟩ := h
  have h9 : List.take 9 (beginMark ++ t) = List.take 9 (endMark ++ W) := by
    rw [ht]
  rw [List.take_append_of_le_length (by decide),
    List.take_append_of_le_length (by decide)] at h9
  exact absurd h9 (by decide)

/-- The generic matcher consumes exactly one full block: matching
`blockFor … ++ t` yields `t`. -/
theorem matchBlock_at_block {lg usr idf jd hn prt : List Char}
    (hjd : ∀ c ∈ jd, c.isDigit = true)
    (hlg : ∀ c ∈ lg, c ≠ '#') (husr : ∀ c ∈ usr, c ≠ '#')
    (hidf : ∀ c ∈ idf, c ≠ '#') (hhn : ∀ c ∈ hn, c ≠ '#')
    (hprt : ∀ c ∈ prt, c ≠ '#') (t : List Char) :
    matchBlock (blockFor lg usr idf jd hn prt ++ t) = some t := by
  have hshape : blockFor lg usr idf jd hn prt ++ t =
      beginMark ++ (jd ++ (closeMark ++ (midBody lg usr idf jd hn prt ++
        (endMark ++ (jd ++ (closeMark ++ t)))))) := by
    simp [blockFor, List.append_assoc]
  rw [hshape]
  unfold matchBlock
  rw [if_pos (isPrefixOf_eq_true.mpr (List.prefix_append _ _))]
  rw [List.drop_left]
  have hjrp : ∀ c ∈ jd, c ≠ ')' := fun c hc => (char_digit_ne (hjd c hc)).2.1
  have hf1 : findLit closeMark (jd ++ (closeMark ++
      (midBody lg usr idf jd hn prt ++ (endMark ++ (jd ++ (closeMark ++ t)))))) =
      some (midBody lg usr idf jd hn prt ++ (endMark ++ (jd ++ (closeMark ++ t)))) := by
    rw [findLit_append_of_noOcc (noOccAt_of_head (by rw [closeMark_cons]; rfl) hjrp),
      findLit_self (by rw [closeMark_cons]; simp)]
  rw [hf1]
  dsimp only
  have hmid := midBody_no_hash hjd hlg husr hidf hhn hprt
  have hf2 : findLit endMark (midBody lg usr idf jd hn prt ++
      (endMark ++ (jd ++ (closeMark ++ t)))) =
      some (jd ++ (closeMark ++ t)) := by
    rw [findLit_append_of_noOcc (noOccAt_of_head (by rw [endMark_cons]; rfl) hmid),
      findLit_self (by rw [endMark_cons]; simp)]
  rw [hf2]
  dsimp only
  rw [findLit_append_of_noOcc (noOccAt_of_head (by rw [closeMark_cons]; rfl) hjrp),
    findLit_self (by rw [closeMark_cons]; simp)]

/-- The job-specific matcher likewise consumes exactly one full block of
its own job id. -/
theorem matchBlockFor_at_block {lg usr idf jd hn prt : List Char}
    (hjd : ∀ c ∈ jd, c.isDigit = true)
    (hlg : ∀ c ∈ lg, c ≠ '#') (husr : ∀ c ∈ usr, c ≠ '#')
    (hidf : ∀ c ∈ idf, c ≠ '#') (hhn : ∀ c ∈ hn, c ≠ '#')
    (hprt : ∀ c ∈ prt, c ≠ '#') (t : List Char) :
    matchBlockFor jd (blockFor lg usr idf jd hn prt ++ t) = some t := by
  have hshape : blockFor lg usr idf jd hn prt ++ t =
      beginMarkFor jd ++ (midBody lg usr idf jd hn prt ++
        (endMarkFor jd ++ t)) := by
    simp [blockFor, beginMarkFor, endMarkFor, List.append_assoc]
  rw [hshape]
  unfold matchBlockFor
  rw [if_pos (isPrefixOf_eq_true.mpr (List.prefix_append _ _))]
  rw [List.drop_left]
  have hmid := midBody_no_hash hjd hlg husr hidf hhn hprt
  have hhead : (endMarkFor jd).head? = some '#' := by
    rw [endMarkFor, endMark_cons]
    rfl
  rw [findLit_append_of_noOcc (noOccAt_of_head hhead hmid),
    findLit_self (endMarkFor_ne_nil jd)]

/-- Inside a block (past its leading `#`), the begin marker never starts:
every other `#` in the block is the end-marker line, which fails the
`BEG`/`END` comparison. -/
theorem noOccAt_bm_blockTail {lg usr idf jd hn prt : List Char}
    (hjd : ∀ c ∈ jd, c.isDigit = true)
    (hlg : ∀ c ∈ lg, c ≠ '#') (husr : ∀ c ∈ usr, c ≠ '#')
    (hidf : ∀ c ∈ idf, c ≠ '#') (hhn : ∀ c ∈ hn, c ≠ '#')
    (hprt : ∀ c ∈ prt, c ≠ '#') (W : List Char) :
    NoOccAt beginMark
      (str " === BEGIN HPC App VSCode Configuration (JobID: " ++
        (jd ++ (closeMark ++ (midBody lg usr idf jd hn prt ++
          (endMark ++ (jd ++ closeMark)))))) W := by
  have hjh : ∀ c ∈ jd, c ≠ '#' := fun c hc => (char_digit_ne (hjd c hc)).1
  have hmid := midBody_no_hash hjd hlg husr hidf hhn hprt
  have hbmh : beginMark.head? = some '#' := by rw [beginMark_cons]; rfl
  refine noOccAt_append (noOccAt_of_head hbmh (by decide)) ?_
  refine noOccAt_append (noOccAt_of_head hbmh hjh) ?_
  refine noOccAt_append (noOccAt_of_head hbmh (by decide)) ?_
  refine noOccAt_append (noOccAt_of_head hbmh hmid) ?_
  refine noOccAt_append ?_ ?_
  · show NoOccAt beginMark
      ('#' :: str " === END HPC App VSCode Configuration (JobID: ") _
    refine noOccAt_cons ?_ (noOccAt_of_head hbmh (by decide))
    exact bm_not_pre_em _
  · exact noOccAt_append (noOccAt_of_head hbmh hjh)
      (noOccAt_of_head hbmh (by decide))

/-- Cons-shape of a block (used to step past its leading `#`). -/
theorem blockFor_cons (lg usr idf jd hn prt : List Char) :
    blockFor lg usr idf jd hn prt =
      '#' :: (str " === BEGIN HPC App VSCode Configuration (JobID: " ++
        (jd ++ (closeMark ++ (midBody lg usr idf jd hn prt ++
          (endMark ++ (jd ++ closeMark)))))) := by
  rw [blockFor, beginMark_cons]
  simp [List.append_assoc]

/-- A different job id's removal pattern matches nowhere inside a block:
not at its start (the embedded job ids differ) and not later (no begin
marker starts there). -/
theorem mBF_none_at_block {A lg usr idf jd hn prt : List Char}
    (hA : ∀ c ∈ A, c.isDigit = true) (hjd : ∀ c ∈ jd, c.isDigit = true)
    (hne : A ≠ jd)
    (hlg : ∀ c ∈ lg, c ≠ '#') (husr : ∀ c ∈ usr, c ≠ '#')
    (hidf : ∀ c ∈ idf, c ≠ '#') (hhn : ∀ c ∈ hn, c ≠ '#')
    (hprt : ∀ c ∈ prt, c ≠ '#') (W : List Char) :
    ∀ i < (blockFor lg usr idf jd hn prt).length,
      matchBlockFor A
        (List.drop i (blockFor lg usr idf jd hn prt) ++ W) = none := by
  intro i hi
  match i with
  | 0 =>
    rw [List.drop_zero]
    unfold matchBlockFor
    rw [if_neg]
    intro hb
    have hpre := isPrefixOf_eq_true.mp hb
    have hshape : blockFor lg usr idf jd hn prt ++ W =
        beginMark ++ (jd ++ (')' :: (str " ===" ++
          (midBody lg usr idf jd hn prt ++
            (endMark ++ (jd ++ (closeMark ++ W))))))) := by
      rw [blockFor, closeMark_cons]
      simp [List.append_assoc]
    have hshape2 : beginMarkFor A = beginMark ++ (A ++ (')' :: str " ===")) := by
      rw [beginMarkFor, closeMark_cons]
      simp [List.append_assoc]
    rw [hshape, hshape2] at hpre
    rw [List.prefix_append_right_inj] at hpre
    exact digit_close_not_pre hA hjd hne _ _ hpre
  | i + 1 =>
    rw [blockFor_cons, List.drop_succ_cons]
    have hlen : i < (str " === BEGIN HPC App VSCode Configuration (JobID: " ++
        (jd ++ (closeMark ++ (midBody lg usr idf jd hn prt ++
          (endMark ++ (jd ++ closeMark)))))).length := by
      rw [blockFor_cons] at hi
      simpa using hi
    exact matchBlockFor_eq_none A
      (noOccAt_bm_blockTail hjd hlg husr hidf hhn hprt W i hlen)

/-- No marker match can start at a newline. -/
theorem bm_not_pre_nl (s : List Char) : ¬ beginMark <+: '\n' :: s := by
  intro hp
  rw [beginMark_cons, List.cons_prefix_cons] at hp
  exact absurd hp.1 (by decide)

/-- Generic scan of the file written by an upsert: the marker-free old
content is copied, the single fresh block is removed (count one), the
newlines around it survive. -/
theorem scanAll_mB_result {X B' : List Char} (hX : NoPre beginMark X)
    (hmatch : matchBlock (B' ++ ['\n']) = some ['\n']) (hB' : B' ≠ []) :
    scanAll matchBlock (X ++ '\n' :: '\n' :: (B' ++ ['\n'])) =
      (X ++ '\n' :: '\n' :: '\n' :: [], 1) := by
  have h0 : scanAll matchBlock ['\n'] = (['\n'], 0) := by
    rw [scanAll_cons_none (matchBlock_eq_none (bm_not_pre_nl []))]
    rfl
  have hne : B' ++ ['\n'] ≠ [] := by
    intro he
    rcases List.append_eq_nil.mp he with ⟨h1, _⟩
    exact hB' h1
  have hscB : scanAll matchBlock (B' ++ ['\n']) = (['\n'], 1) := by
    rw [scanAll_match matchBlock_shrinking hmatch hne, h0]
  have hsc2 : scanAll matchBlock ('\n' :: '\n' :: (B' ++ ['\n'])) =
      ('\n' :: '\n' :: ['\n'], 1) := by
    rw [scanAll_cons_none (matchBlock_eq_none (bm_not_pre_nl _)),
      scanAll_cons_none (matchBlock_eq_none (bm_not_pre_nl _)), hscB]
  rw [scanAll_mB_append (noOccAt_of_noPre hX (by decide)), hsc2]

/-- Same scan for the job-specific removal pattern of the job just
written: exactly one match. -/
theorem scanAll_mBF_result {jd X B' : List Char} (hX : NoPre beginMark X)
    (hmatch : matchBlockFor jd (B' ++ ['\n']) = some ['\n']) (hB' : B' ≠ []) :
    scanAll (matchBlockFor jd) (X ++ '\n' :: '\n' :: (B' ++ ['\n']))
      = (X ++ '\n' :: '\n' :: '\n' :: [], 1) := by
  have h0 : scanAll (matchBlockFor jd) ['\n'] = (['\n'], 0) := by
    rw [scanAll_cons_none (matchBlockFor_eq_none jd (bm_not_pre_nl []))]
    rfl
  have hne : B' ++ ['\n'] ≠ [] := by
    intro he
    rcases List.append_eq_nil.mp he with ⟨h1, _⟩
    exact hB' h1
  have hscB : scanAll (matchBlockFor jd) (B' ++ ['\n']) = (['\n'], 1) := by
    rw [scanAll_match (matchBlockFor_shrinking jd) hmatch hne, h0]
  have hsc2 : scanAll (matchBlockFor jd) ('\n' :: '\n' :: (B' ++ ['\n'])) =
      ('\n' :: '\n' :: ['\n'], 1) := by
    rw [scanAll_cons_none (matchBlockFor_eq_none jd (bm_not_pre_nl _)),
      scanAll_cons_none (matchBlockFor_eq_none jd (bm_not_pre_nl _)), hscB]
  rw [scanAll_mBF_append jd (noOccAt_of_noPre hX (by decide)), hsc2]

/-- A different job id's removal pattern matches nowhere in the file
written by an upsert. -/
theorem scanAll_mBF_other_result {A lg usr idf jd hn prt X : List Char}
    (hX : NoPre beginMark X)
    (hA : ∀ c ∈ A, c.isDigit = true) (hjd : ∀ c ∈ jd, c.isDigit = true)
    (hne : A ≠ jd)
    (hlg : ∀ c ∈ lg, c ≠ '#') (husr : ∀ c ∈ usr, c ≠ '#')
    (hidf : ∀ c ∈ idf, c ≠ '#') (hhn : ∀ c ∈ hn, c ≠ '#')
    (hprt : ∀ c ∈ prt, c ≠ '#') :
    scanAll (matchBlockFor A)
        (X ++ '\n' :: '\n' :: (blockFor lg usr idf jd hn prt ++ ['\n'])) =
      (X ++ '\n' :: '\n' :: (blockFor lg usr idf jd hn prt ++ ['\n']), 0) := by
  have h0 : scanAll (matchBlockFor A) ['\n'] = (['\n'], 0) := by
    rw [scanAll_cons_none (matchBlockFor_eq_none A (bm_not_pre_nl []))]
    rfl
  have hscB : scanAll (matchBlockFor A)
      (blockFor lg usr idf jd hn prt ++ ['\n']) =
      (blockFor lg usr idf jd hn prt ++ ['\n'], 0) := by
    rw [scanAll_append_none
      (mBF_none_at_block hA hjd hne hlg husr hidf hhn hprt ['\n']), h0]
  have hsc2 : scanAll (matchBlockFor A)
      ('\n' :: '\n' :: (blockFor lg usr idf jd hn prt ++ ['\n'])) =
      ('\n' :: '\n' :: (blockFor lg usr idf jd hn prt ++ ['\n']), 0) := by
    rw [scanAll_cons_none (matchBlockFor_eq_none A (bm_not_pre_nl _)),
      scanAll_cons_none (matchBlockFor_eq_none A (bm_not_pre_nl _)), hscB]
  rw [scanAll_mBF_append A (noOccAt_of_noPre hX (by decide)), hsc2]

/-- Result shape of an upsert when the stripped previous content is not
blank. -/
theorem upsert_eq_nonempty (lg usr idf jd hn prt existing : List Char)
    (h : pyStrip (subBlocks existing) ≠ []) :
    add_ssh_config_to_local lg usr idf jd hn prt existing =
      pyRstrip (subBlocks existing) ++
        '\n' :: '\n' :: (blockFor lg usr idf jd hn prt ++ ['\n']) := by
  simp only [add_ssh_config_to_local, newConfig]
  rw [if_pos h]
  have h1 : str "\n" = ['\n'] := rfl
  rw [h1]
  simp [List.append_assoc]

/-- Result shape of an upsert when the stripped previous content is
blank. -/
theorem upsert_eq_empty (lg usr idf jd hn prt existing : List Char)
    (h : pyStrip (subBlocks existing) = []) :
    add_ssh_config_to_local lg usr idf jd hn prt existing =
      '\n' :: (blockFor lg usr idf jd hn prt ++ ['\n']) := by
  simp only [add_ssh_config_to_local, newConfig]
  rw [if_neg (fun hc => hc h)]
  have h1 : str "\n" = ['\n'] := rfl
  rw [h1]
  simp [List.append_assoc]

/-- Generic scan of a fresh `new_config` written to a blank file. -/
theorem scanAll_mB_NC {lg usr idf jd hn prt : List Char}
    (hjd : ∀ c ∈ jd, c.isDigit = true)
    (hlg : ∀ c ∈ lg, c ≠ '#') (husr : ∀ c ∈ usr, c ≠ '#')
    (hidf : ∀ c ∈ idf, c ≠ '#') (hhn : ∀ c ∈ hn, c ≠ '#')
    (hprt : ∀ c ∈ prt, c ≠ '#') :
    scanAll matchBlock ('\n' :: (blockFor lg usr idf jd hn prt ++ ['\n'])) =
      (['\n', '\n'], 1) := by
  have h0 : scanAll matchBlock ['\n'] = (['\n'], 0) := by
    rw [scanAll_cons_none (matchBlock_eq_none (bm_not_pre_nl []))]
    rfl
  have hBne : blockFor lg usr idf jd hn prt ≠ [] := by
    rw [blockFor_cons]
    simp
  have hne : blockFor lg usr idf jd hn prt ++ ['\n'] ≠ [] := by
    intro he
    rcases List.append_eq_nil.mp he with ⟨h1, _⟩
    exact hBne h1
  rw [scanAll_cons_none (matchBlock_eq_none (bm_not_pre_nl _)),
    scanAll_match matchBlock_shrinking
      (matchBlock_at_block hjd hlg husr hidf hhn hprt ['\n']) hne, h0]

/-- Job-specific scan of a fresh `new_config` written to a blank file. -/
theorem scanAll_mBF_NC {lg usr idf jd hn prt : List Char}
    (hjd : ∀ c ∈ jd, c.isDigit = true)
    (hlg : ∀ c ∈ lg, c ≠ '#') (husr : ∀ c ∈ usr, c ≠ '#')
    (hidf : ∀ c ∈ idf, c ≠ '#') (hhn : ∀ c ∈ hn, c ≠ '#')
    (hprt : ∀ c ∈ prt, c ≠ '#') :
    scanAll (matchBlockFor jd)
        ('\n' :: (blockFor lg usr idf jd hn prt ++ ['\n'])) =
      (['\n', '\n'], 1) := by
  have h0 : scanAll (matchBlockFor jd) ['\n'] = (['\n'], 0) := by
    rw [scanAll_cons_none (matchBlockFor_eq_none jd (bm_not_pre_nl []))]
    rfl
  have hBne : blockFor lg usr idf jd hn prt ≠ [] := by
    rw [blockFor_cons]
    simp
  have hne : blockFor lg usr idf jd hn prt ++ ['\n'] ≠ [] := by
    intro he
    rcases List.append_eq_nil.mp he with ⟨h1, _⟩
    exact hBne h1
  rw [scanAll_cons_none (matchBlockFor_eq_none jd (bm_not_pre_nl _)),
    scanAll_match (matchBlockFor_shrinking jd)
      (matchBlockFor_at_block hjd hlg husr hidf hhn hprt ['\n']) hne, h0]

/-- Claim C2 is false as universally stated: for prior content consisting
of a stray BEGIN marker line with no matching END marker, the second
upsert's non-greedy strip pattern matches from the stray marker through
the freshly written block's END marker, so the second call's result is not
byte-identical to the first call's. -/
theorem c2_upsert_not_idempotent_counterexample :
    add_ssh_config_to_local (str "hpc3.rcic.uci.edu") (str "panteater")
        (str "/home/p/.ssh/panteater_hpc_app_key") (str "123456")
        (str "hpc3-gpu-14") (str "45678")
        (add_ssh_config_to_local (str "hpc3.rcic.uci.edu") (str "panteater")
          (str "/home/p/.ssh/panteater_hpc_app_key") (str "123456")
          (str "hpc3-gpu-14") (str "45678")
          (str "# === BEGIN HPC App VSCode Configuration (JobID: 0) ===\nZ")) ≠
      add_ssh_config_to_local (str "hpc3.rcic.uci.edu") (str "panteater")
        (str "/home/p/.ssh/panteater_hpc_app_key") (str "123456")
        (str "hpc3-gpu-14") (str "45678")
        (str "# === BEGIN HPC App VSCode Configuration (JobID: 0) ===\nZ") := by
  decide

/-- Claim C2 amended: for a numeric job id, parameters free of the `#`
marker character, and prior content whose block-stripping pass leaves no
BEGIN-marker text behind (no stray marker outside a complete block),
calling the upsert twice is byte-identical to calling it once, and the
resulting file holds exactly one marker-delimited block for that job id. -/
theorem c2_upsert_idempotent_amended
    (lg usr idf jd hn prt existing : List Char)
    (hjd : ∀ c ∈ jd, c.isDigit = true)
    (hlg : ∀ c ∈ lg, c ≠ '#') (husr : ∀ c ∈ usr, c ≠ '#')
    (hidf : ∀ c ∈ idf, c ≠ '#') (hhn : ∀ c ∈ hn, c ≠ '#')
    (hprt : ∀ c ∈ prt, c ≠ '#')
    (hwf : containsSeq beginMark (subBlocks existing) = false) :
    add_ssh_config_to_local lg usr idf jd hn prt
        (add_ssh_config_to_local lg usr idf jd hn prt existing) =
      add_ssh_config_to_local lg usr idf jd hn prt existing ∧
    countBlocksFor jd (add_ssh_config_to_local lg usr idf jd hn prt existing)
      = 1 := by
  have hXpre : NoPre beginMark (pyRstrip (subBlocks existing)) :=
    noPre_of_isPre (pyRstrip_isPre _) (noPre_of_not_contains hwf)
  have hBne : blockFor lg usr idf jd hn prt ≠ [] := by
    rw [blockFor_cons]
    simp
  by_cases hS : pyStrip (subBlocks existing) = []
  · have hr1 := upsert_eq_empty lg usr idf jd hn prt existing hS
    have hsub : subBlocks ('\n' :: (blockFor lg usr idf jd hn prt ++ ['\n']))
        = ['\n', '\n'] := by
      unfold subBlocks
      rw [scanAll_mB_NC hjd hlg husr hidf hhn hprt]
    constructor
    · rw [hr1]
      rw [upsert_eq_empty lg usr idf jd hn prt _ (by rw [hsub]; decide)]
    · rw [hr1]
      unfold countBlocksFor
      rw [scanAll_mBF_NC hjd hlg husr hidf hhn hprt]
  · have hr1 := upsert_eq_nonempty lg usr idf jd hn prt existing hS
    have hmatch := matchBlock_at_block hjd hlg husr hidf hhn hprt ['\n']
    have hmatchF := matchBlockFor_at_block hjd hlg husr hidf hhn hprt ['\n']
    have hscan := scanAll_mB_result hXpre hmatch hBne
    have hsub : subBlocks (pyRstrip (subBlocks existing) ++
        '\n' :: '\n' :: (blockFor lg usr idf jd hn prt ++ ['\n'])) =
        pyRstrip (subBlocks existing) ++ ['\n', '\n', '\n'] := by
      have hdefn : subBlocks (pyRstrip (subBlocks existing) ++
          '\n' :: '\n' :: (blockFor lg usr idf jd hn prt ++ ['\n'])) =
          (scanAll matchBlock (pyRstrip (subBlocks existing) ++
            '\n' :: '\n' :: (blockFor lg usr idf jd hn prt ++ ['\n']))).1 :=
        rfl
      rw [hdefn, hscan]
    have hws : ∀ c ∈ (['\n', '\n', '\n'] : List Char), isPySpace c = true := by
      decide
    have hstrip2 : pyStrip (subBlocks (pyRstrip (subBlocks existing) ++
        '\n' :: '\n' :: (blockFor lg usr idf jd hn prt ++ ['\n']))) =
        pyStrip (subBlocks existing) := by
      rw [hsub, pyStrip_append_ws hws, pyStrip_pyRstrip]
    constructor
    · rw [hr1, upsert_eq_nonempty lg usr idf jd hn prt _ (by rw [hstrip2]; exact hS)]
      rw [hsub, pyRstrip_append_ws hws, pyRstrip_idem]
    · rw [hr1]
      unfold countBlocksFor
      rw [scanAll_mBF_result hXpre hmatchF hBne]

/-- Witness for the amended C2 at concrete inputs. -/
theorem c2_upsert_idempotent_amended_witness :
    (∀ c ∈ str "123456", c.isDigit = true) ∧
    containsSeq beginMark
      (subBlocks (str "Host other\n  HostName other.example.org\n")) = false ∧
    add_ssh_config_to_local (str "hpc3.rcic.uci.edu") (str "panteater")
        (str "/home/p/.ssh/key") (str "123456") (str "hpc3-gpu-14")
        (str "45678")
        (add_ssh_config_to_local (str "hpc3.rcic.uci.edu") (str "panteater")
          (str "/home/p/.ssh/key") (str "123456") (str "hpc3-gpu-14")
          (str "45678") (str "Host other\n  HostName other.example.org\n")) =
      add_ssh_config_to_local (str "hpc3.rcic.uci.edu") (str "panteater")
        (str "/home/p/.ssh/key") (str "123456") (str "hpc3-gpu-14")
        (str "45678") (str "Host other\n  HostName other.example.org\n") :=
  ⟨by decide, by decide,
   (c2_upsert_idempotent_amended (str "hpc3.rcic.uci.edu") (str "panteater")
     (str "/home/p/.ssh/key") (str "123456") (str "hpc3-gpu-14")
     (str "45678") (str "Host other\n  HostName other.example.org\n")
     (by decide) (by decide) (by decide) (by decide) (by decide) (by decide)
     (by decide)).1⟩

/-- Claim C10 is false as universally stated: prior content in which a
BEGIN-marker prefix directly precedes a complete block re-forms a full
block at the removal seam, so after the upsert the file contains two HPC
App blocks. -/
theorem c10_two_blocks_counterexample :
    countBlocks (add_ssh_config_to_local (str "hpc3.rcic.uci.edu")
      (str "panteater") (str "/home/p/.ssh/panteater_hpc_app_key")
      (str "123456") (str "hpc3-gpu-14") (str "45678")
      (str "# === BEGIN HPC App VSCode Configur# === BEGIN HPC App VSCode Configuration (JobID: 5) ===x# === END HPC App VSCode Configuration (JobID: 5) ===ation (JobID: 7) ===\nmid\n# === END HPC App VSCode Configuration (JobID: 7) ===")) =
      2 := by decide

/-- Claim C10 amended: with a numeric job id, `#`-free parameters and
prior content whose stripping pass leaves no BEGIN-marker text behind, a
single upsert leaves exactly one HPC App block in total, and no block for
any other (numeric, distinct) job id survives — in particular a block
previously written for a different live job is removed. -/
theorem c10_single_block_amended
    (lg usr idf jd other existing : List Char) (hn prt : List Char)
    (hjd : ∀ c ∈ jd, c.isDigit = true)
    (hother : ∀ c ∈ other, c.isDigit = true) (hne : other ≠ jd)
    (hlg : ∀ c ∈ lg, c ≠ '#') (husr : ∀ c ∈ usr, c ≠ '#')
    (hidf : ∀ c ∈ idf, c ≠ '#') (hhn : ∀ c ∈ hn, c ≠ '#')
    (hprt : ∀ c ∈ prt, c ≠ '#')
    (hwf : containsSeq beginMark (subBlocks existing) = false) :
    countBlocks (add_ssh_config_to_local lg usr idf jd hn prt existing) = 1 ∧
    countBlocksFor other
      (add_ssh_config_to_local lg usr idf jd hn prt existing) = 0 := by
  have hXpre : NoPre beginMark (pyRstrip (subBlocks existing)) :=
    noPre_of_isPre (pyRstrip_isPre _) (noPre_of_not_contains hwf)
  have hBne : blockFor lg usr idf jd hn prt ≠ [] := by
    rw [blockFor_cons]
    simp
  by_cases hS : pyStrip (subBlocks existing) = []
  · have hr1 := upsert_eq_empty lg usr idf jd hn prt existing hS
    constructor
    · rw [hr1]
      unfold countBlocks
      rw [scanAll_mB_NC hjd hlg husr hidf hhn hprt]
    · rw [hr1]
      unfold countBlocksFor
      have h0 : scanAll (matchBlockFor other) ['\n'] = (['\n'], 0) := by
        rw [scanAll_cons_none (matchBlockFor_eq_none other (bm_not_pre_nl []))]
        rfl
      have hscB : scanAll (matchBlockFor other)
          (blockFor lg usr idf jd hn prt ++ ['\n']) =
          (blockFor lg usr idf jd hn prt ++ ['\n'], 0) := by
        rw [scanAll_append_none
          (mBF_none_at_block hother hjd hne hlg husr hidf hhn hprt ['\n']), h0]
      rw [scanAll_cons_none (matchBlockFor_eq_none other (bm_not_pre_nl _)),
        hscB]
  · have hr1 := upsert_eq_nonempty lg usr idf jd hn prt existing hS
    have hmatch := matchBlock_at_block hjd hlg husr hidf hhn hprt ['\n']
    constructor
    · rw [hr1]
      unfold countBlocks
      rw [scanAll_mB_result hXpre hmatch hBne]
    · rw [hr1]
      unfold countBlocksFor
      rw [scanAll_mBF_other_result hXpre hother hjd hne hlg husr hidf hhn
        hprt]

/-- Witness for the amended C10 at concrete inputs (prior content holding
a block for job 99, upsert for job 123456). -/
theorem c10_single_block_amended_witness :
    containsSeq beginMark (subBlocks (str "Host keepme\n" ++
      newConfig (str "hpc3.rcic.uci.edu") (str "panteater") (str "/k")
        (str "99") (str "oldnode") (str "22"))) = false ∧
    countBlocks (add_ssh_config_to_local (str "hpc3.rcic.uci.edu")
      (str "panteater") (str "/k") (str "123456") (str "hpc3-gpu-14")
      (str "45678") (str "Host keepme\n" ++
        newConfig (str "hpc3.rcic.uci.edu") (str "panteater") (str "/k")
          (str "99") (str "oldnode") (str "22"))) = 1 ∧
    countBlocksFor (str "99")
      (add_ssh_config_to_local (str "hpc3.rcic.uci.edu") (str "panteater")
        (str "/k") (str "123456") (str "hpc3-gpu-14") (str "45678")
        (str "Host keepme\n" ++
          newConfig (str "hpc3.rcic.uci.edu") (str "panteater") (str "/k")
            (str "99") (str "oldnode") (str "22"))) = 0 := by
  have h := c10_single_block_amended (str "hpc3.rcic.uci.edu")
    (str "panteater") (str "/k") (str "123456") (str "99")
    (str "Host keepme\n" ++
      newConfig (str "hpc3.rcic.uci.edu") (str "panteater") (str "/k")
        (str "99") (str "oldnode") (str "22"))
    (str "hpc3-gpu-14") (str "45678")
    (by decide) (by decide) (by decide) (by decide) (by decide) (by decide)
    (by decide) (by decide) (by decide)
  exact ⟨by decide, h.1, h.2⟩
